import Mathlib

/- Shallow embedding of the QuickHull convex-hull engine of this repository
   (the ConvexHull module ported from the three.js QuickHull implementation).

   Embedding conventions:
   * JavaScript numbers are embedded as exact rationals ℚ; `Number.EPSILON`
     is the rational 2 ^ (-52).
   * Vertex object identity is embedded as the vertex's index in the input
     list (`this.vertices` is created once, in input order, and never
     reordered), so `vertex !== v0` becomes an index disequality.
   * `console.error` calls are embedded as an explicit report list.
   * A JavaScript `TypeError` (property access on `undefined`, which is how
     the code actually aborts on too-few or degenerate points) is embedded
     as `Except.error HullError.typeError`.
   * `three.Plane.setFromCoplanarPoints` and `Triangle.getNormal` normalize
     the normal vector (a square root, irrational in general).  Every
     comparison the embedded code performs on such a distance is invariant
     under scaling by the positive factor 1/|n| (argmax selection against a
     running maximum initialised to -1, and a sign test against 0), so the
     embedding keeps the unnormalized normal; the zero-normal case, where
     JavaScript would produce NaN (and every `NaN > x` / `NaN < x`
     comparison is false), is embedded as `Option.none` with the same
     "comparison always false" reading.
   * In JavaScript `0/0 = NaN` inside `Line3.closestPointToPoint` (a
     zero-length line): the clamped parameter, the closest point and the
     squared distance are then all NaN and the `distance > maxDistance`
     update test is false.  This is embedded as `Option.none` distances. -/

namespace QuickHull

/-- A 3D point, `three.Vector3` with exact rational coordinates. -/
structure Vec3 where
  x : ℚ
  y : ℚ
  z : ℚ
deriving DecidableEq, Repr

/-- `Vector3.dot`. -/
def dot (a b : Vec3) : ℚ := a.x * b.x + a.y * b.y + a.z * b.z

/-- `Vector3.sub`. -/
def sub (a b : Vec3) : Vec3 := ⟨a.x - b.x, a.y - b.y, a.z - b.z⟩

/-- `Vector3.add`. -/
def add (a b : Vec3) : Vec3 := ⟨a.x + b.x, a.y + b.y, a.z + b.z⟩

/-- `Vector3.multiplyScalar`. -/
def smul (t : ℚ) (v : Vec3) : Vec3 := ⟨t * v.x, t * v.y, t * v.z⟩

/-- `Vector3.cross`. -/
def cross (a b : Vec3) : Vec3 :=
  ⟨a.y * b.z - a.z * b.y, a.z * b.x - a.x * b.z, a.x * b.y - a.y * b.x⟩

/-- `Vector3.distanceToSquared`. -/
def distSq (a b : Vec3) : ℚ := dot (sub a b) (sub a b)

/-- `Vector3.getComponent`. -/
def getComp (v : Vec3) : Fin 3 → ℚ
  | 0 => v.x
  | 1 => v.y
  | 2 => v.z

/-- The zero vector (also the `getD` fallback for index lookups; every lookup
the code performs is at an in-bounds index). -/
def vzero : Vec3 := ⟨0, 0, 0⟩

/-- The queryable data of a `Face`: its (outward) normal and its plane
constant `normal ⬝ midpoint`.  (`Face.compute`, lines 2529-2543.) -/
structure FaceData where
  normal : Vec3
  constant : ℚ
deriving DecidableEq, Repr

/-- `Face.distanceToPoint` (line 2544): `normal.dot(point) - constant`. -/
def distanceToPoint (f : FaceData) (p : Vec3) : ℚ := dot f.normal p - f.constant

/-- `ConvexHull.containsPoint` (lines 2051-2059): scan the face list, return
`false` at the first face whose signed distance exceeds the tolerance,
`true` if the loop finishes. -/
def containsPoint : List FaceData → ℚ → Vec3 → Bool
  | [], _, _ => true
  | f :: rest, tol, p =>
    if distanceToPoint f p > tol then false else containsPoint rest tol p

/-- The face/vertex state of a `ConvexHull` object that `makeEmpty` touches. -/
structure HullState where
  faces : List FaceData
  vertices : List Vec3
deriving DecidableEq, Repr

/-- `ConvexHull.makeEmpty` (lines 2103-2107): `this.faces = [];
this.vertices = [];`. -/
def makeEmpty (_h : HullState) : HullState := { faces := [], vertices := [] }

/-- A ray-intersection result: a finite point, or the non-null garbage
vector produced by `ray.at(Infinity, target)` (components `±Infinity`/`NaN`)
when `tFar` was never narrowed below `Infinity`. -/
inductive RayHit where
  | point (p : Vec3)
  | infinitePoint
deriving DecidableEq, Repr

/-- `Ray.at`: `origin + t * direction`. -/
def rayAt (origin direction : Vec3) (t : ℚ) : Vec3 := add origin (smul t direction)

/-- The comparison `tNear > tFar` where `none` on the left embeds
`tNear = -Infinity` and `none` on the right embeds `tFar = Infinity`
(in both cases the JavaScript comparison is false). -/
def tGT : Option ℚ → Option ℚ → Bool
  | some a, some b => a > b
  | _, _ => false

/-- The face loop of `ConvexHull.intersectRay` (lines 2065-2090), carrying
the `[tNear, tFar]` interval (`none` = `-Infinity` / `Infinity`).  Returns
`none` for the two early `return null` exits, otherwise the final interval. -/
def intersectRayLoop (origin direction : Vec3) :
    List FaceData → Option ℚ → Option ℚ → Option (Option ℚ × Option ℚ)
  | [], tNear, tFar => some (tNear, tFar)
  | f :: rest, tNear, tFar =>
    let vN := distanceToPoint f origin
    let vD := dot f.normal direction
    if 0 < vN ∧ 0 ≤ vD then none
    else
      let t := if vD ≠ 0 then -vN / vD else 0
      if t ≤ 0 then
        intersectRayLoop origin direction rest tNear tFar
      else if 0 < vD then
        let tFar1 : Option ℚ := some (match tFar with | none => t | some tf => min t tf)
        if tGT tNear tFar1 then none
        else intersectRayLoop origin direction rest tNear tFar1
      else
        let tNear1 : Option ℚ := some (match tNear with | none => t | some tn => max t tn)
        if tGT tNear1 tFar then none
        else intersectRayLoop origin direction rest tNear1 tFar

/-- `ConvexHull.intersectRay` (lines 2060-2099).  After the loop:
`ray.at(tNear)` when `tNear !== -Infinity`, else `ray.at(tFar)` — which is
`ray.at(Infinity)`, a non-null vector, when `tFar` was never narrowed. -/
def intersectRay (faces : List FaceData) (origin direction : Vec3) : Option RayHit :=
  match intersectRayLoop origin direction faces none none with
  | none => none
  | some (some tn, _) => some (.point (rayAt origin direction tn))
  | some (none, some tf) => some (.point (rayAt origin direction tf))
  | some (none, none) => some .infinitePoint

/-- The running state of `computeExtremes` (lines 2209-2247): per axis, the
current extreme vertex indices and extreme coordinate values. -/
structure Extremes where
  minI : Fin 3 → ℕ
  minV : Fin 3 → ℚ
  maxI : Fin 3 → ℕ
  maxV : Fin 3 → ℚ

/-- The initial extremes state: everything is `vertices[0]`. -/
def extInit (p : Vec3) : Extremes :=
  ⟨fun _ => 0, fun j => getComp p j, fun _ => 0, fun j => getComp p j⟩

/-- One iteration of the `computeExtremes` vertex loop: strict `<` / `>`
updates, so the first extreme vertex found wins on ties. -/
def extStep (s : Extremes) (iv : ℕ × Vec3) : Extremes where
  minI j := if getComp iv.2 j < s.minV j then iv.1 else s.minI j
  minV j := if getComp iv.2 j < s.minV j then getComp iv.2 j else s.minV j
  maxI j := if s.maxV j < getComp iv.2 j then iv.1 else s.maxI j
  maxV j := if s.maxV j < getComp iv.2 j then getComp iv.2 j else s.maxV j

/-- `ConvexHull.computeExtremes` over the index-enumerated vertex list
(initialised from `vertices[0]`, then a pass over all vertices). -/
def computeExtremes (head : Vec3) (enum : List (ℕ × Vec3)) : Extremes :=
  enum.foldl extStep (extInit head)

/-- `Number.EPSILON` as an exact rational. -/
def machineEps : ℚ := 1 / 2 ^ 52

/-- The tolerance computed at the end of `computeExtremes` (lines 2241-2245):
`3 * Number.EPSILON * (max(|min.x|,|max.x|) + max(|min.y|,|max.y|) +
max(|min.z|,|max.z|))`. -/
def toleranceOf (e : Extremes) : ℚ :=
  3 * machineEps *
    (max (abs (e.minV 0)) (abs (e.maxV 0)) +
      max (abs (e.minV 1)) (abs (e.maxV 1)) +
      max (abs (e.minV 2)) (abs (e.maxV 2)))

/-- The vertex list paired with each vertex's index (vertex object identity).
Recursed here so its equations are directly available. -/
def withIdx : ℕ → List Vec3 → List (ℕ × Vec3)
  | _, [] => []
  | k, p :: ps => (k, p) :: withIdx (k + 1) ps

/-- The linear argmax scan shared by the selection loops of the algorithm
(`v2`/`v3` selection in `computeInitialHull`, the axis pick, and the eye
scan of `nextVertexToAdd`): run over the list, skip elements failing the
candidate test, update the running maximum only on strict improvement
(`distance > maxDistance`), so the first maximiser found wins.  A `none`
distance embeds a JavaScript NaN, whose `>` comparison is always false. -/
def scanMax {β : Type} (cand : β → Bool) (dist : β → Option ℚ) :
    List β → ℚ → Option β → ℚ × Option β
  | [], m, b => (m, b)
  | v :: rest, m, b =>
    if cand v then
      match dist v with
      | some d =>
        if m < d then scanMax cand dist rest d (some v)
        else scanMax cand dist rest m b
      | none => scanMax cand dist rest m b
    else scanMax cand dist rest m b

/-- The clamped parameter of `Line3.closestPointToPoint(p, true, _)`:
`t = ((p-a)⬝(b-a)) / ((b-a)⬝(b-a))` clamped to `[0,1]`; `none` when the line
is degenerate (`0/0 = NaN` in JavaScript). -/
def segParam (a b p : Vec3) : Option ℚ :=
  let d := sub b a
  let dd := dot d d
  if dd = 0 then none else some (max 0 (min 1 (dot (sub p a) d / dd)))

/-- The squared distance from `p` to the segment `[a, b]` computed in the
`v2` loop (lines 2282-2292): `closestPoint.distanceToSquared(p)`. -/
def distSqToSeg (a b p : Vec3) : Option ℚ :=
  (segParam a b p).map fun t => distSq (add a (smul t (sub b a))) p

/-- The (unnormalized) normal of `Plane.setFromCoplanarPoints(a, b, c)`:
`(c - b) × (a - b)`.  three.js normalizes it; the scaling factor is positive
and cancels in every comparison performed, see the header comment. -/
def planeNormal3 (a b c : Vec3) : Vec3 := cross (sub c b) (sub a b)

/-- `Plane.distanceToPoint` for the plane through `a`, `b`, `c`, up to the
positive normalization factor; `none` embeds the NaN distances produced when
the three points are collinear (zero normal). -/
def planeDistOpt (a b c : Vec3) (p : Vec3) : Option ℚ :=
  let n := planeNormal3 a b c
  if n = vzero then none else some (dot n p - dot n a)

/-- The outcome data of `computeInitialHull`: the four simplex vertex
indices, the four faces as vertex-index triangles (in creation order), and
which winding/stitching branch was taken. -/
structure InitialHull where
  i0 : ℕ
  i1 : ℕ
  i2 : ℕ
  i3 : ℕ
  facesTri : List (ℕ × ℕ × ℕ)
  negBranch : Bool
deriving DecidableEq, Repr

/-- How a build run aborts.  The code has exactly one abnormal exit: a
JavaScript `TypeError` from reading a property of `undefined` (no
`DegenerateGeometry`-style error value exists anywhere in the module). -/
inductive HullError where
  | typeError
deriving DecidableEq, Repr

/-- The `console.error` reports of `setFromPoints` (lines 2010-2015).  The
points parameter of the embedding is always a list, so only the
`'needs at least four points'` report can fire. -/
inductive Report where
  | invalidInput
deriving DecidableEq, Repr

/-- Step 1 of `computeInitialHull` (lines 2264-2276): the axis with the
greatest 1d separation, `maxDistance = 0`, default index 0, strict
improvement only. -/
def initialAxis (points : List Vec3) (e : Extremes) : Fin 3 :=
  ((scanMax (fun _ => true)
      (fun i => some (getComp (points.getD (e.maxI i) vzero) i -
        getComp (points.getD (e.minI i) vzero) i))
      [0, 1, 2] 0 (some 0)).2).getD 0

/-- Step 2 of `computeInitialHull` (lines 2279-2292): the vertex farthest
(by squared distance) from the line `v0`-`v1`, skipping `v0` and `v1`
themselves, `maxDistance = 0`. -/
def selectV2 (points : List Vec3) (i0 i1 : ℕ) : ℚ × Option (ℕ × Vec3) :=
  scanMax (fun iv => decide (iv.1 ≠ i0 ∧ iv.1 ≠ i1))
    (fun iv => distSqToSeg (points.getD i0 vzero) (points.getD i1 vzero) iv.2)
    (withIdx 0 points) 0 none

/-- Step 3 of `computeInitialHull` (lines 2293-2305): the vertex farthest
(by absolute plane distance) from the plane `v0`-`v1`-`v2`, skipping the
three chosen vertices.  `maxDistance = -1`, so a vertex at distance 0 is
accepted. -/
def selectV3 (points : List Vec3) (i0 i1 i2 : ℕ) : ℚ × Option (ℕ × Vec3) :=
  scanMax (fun iv => decide (iv.1 ≠ i0 ∧ iv.1 ≠ i1 ∧ iv.1 ≠ i2))
    (fun iv =>
      (planeDistOpt (points.getD i0 vzero) (points.getD i1 vzero)
          (points.getD i2 vzero) iv.2).map abs)
    (withIdx 0 points) (-1) none

/-- The two winding templates for the four simplex faces
(lines 2309-2314 and 2325-2330). -/
def simplexFaces (i0 i1 i2 i3 : ℕ) (neg : Bool) : List (ℕ × ℕ × ℕ) :=
  if neg then [(i0, i1, i2), (i3, i1, i0), (i3, i2, i1), (i3, i0, i2)]
  else [(i0, i2, i1), (i3, i0, i1), (i3, i1, i2), (i3, i2, i0)]

/-- The extremes state computed at the start of `computeInitialHull`
(`this.computeExtremes()`), with `p0 = vertices[0]`. -/
def initialExt (p0 : Vec3) (points : List Vec3) : Extremes :=
  computeExtremes p0 (withIdx 0 points)

/-- `v0`: the minimum vertex of the chosen axis. -/
def initialI0 (p0 : Vec3) (points : List Vec3) : ℕ :=
  (initialExt p0 points).minI (initialAxis points (initialExt p0 points))

/-- `v1`: the maximum vertex of the chosen axis. -/
def initialI1 (p0 : Vec3) (points : List Vec3) : ℕ :=
  (initialExt p0 points).maxI (initialAxis points (initialExt p0 points))

/-- `ConvexHull.computeInitialHull` (lines 2250-2364) up to and including
face creation.  `Except.error .typeError` marks the two places the
JavaScript run throws: `v2.point` with `v2 === undefined` (line 2295, inside
`plane.setFromCoplanarPoints`) and `v3.point` with `v3 === undefined`
(line 2307).  There is no degeneracy check: coplanar input reaches `.ok`
because `selectV3` accepts distance 0.  (The remaining vertex-assignment
loop of the source, lines 2345-2361, neither throws nor touches the face
list.) -/
def computeInitialHull (points : List Vec3) : Except HullError InitialHull :=
  match points with
  | [] => .error .typeError
  | p0 :: rest =>
    let i0 := initialI0 p0 (p0 :: rest)
    let i1 := initialI1 p0 (p0 :: rest)
    match (selectV2 (p0 :: rest) i0 i1).2 with
    | none => .error .typeError
    | some (i2, _) =>
      match (selectV3 (p0 :: rest) i0 i1 i2).2 with
      | none => .error .typeError
      | some (i3, p3) =>
        let neg :=
          match planeDistOpt ((p0 :: rest).getD i0 vzero) ((p0 :: rest).getD i1 vzero)
              ((p0 :: rest).getD i2 vzero) p3 with
          | some d => decide (d < 0)
          | none => false
        .ok { i0 := i0, i1 := i1, i2 := i2, i3 := i3,
              facesTri := simplexFaces i0 i1 i2 i3 neg, negBranch := neg }

/-- The `console.error` reports emitted by `setFromPoints` before it calls
`compute` (lines 2013-2015): the length check only logs, it does not
return. -/
def setFromPointsReports (points : List Vec3) : List Report :=
  if points.length < 4 then [.invalidInput] else []

/-- `ConvexHull.setFromPoints` (lines 2009-2022): report, `makeEmpty`, wrap
all points as vertices in input order, then `compute` — whose first phase is
`computeInitialHull`. -/
def setFromPoints (points : List Vec3) : List Report × Except HullError InitialHull :=
  (setFromPointsReports points, computeInitialHull points)

/-- The content of `this.faces` after `setFromPoints`: `makeEmpty` resets it
to `[]`, and every abnormal exit of `computeInitialHull` happens before the
first `this.faces.push` (line 2342), so a crashed run leaves it empty. -/
def hullFacesAfter (points : List Vec3) : List (ℕ × ℕ × ℕ) :=
  match computeInitialHull points with
  | .error _ => []
  | .ok h => h.facesTri

/-- `HalfEdge.setTwin` (lines 2579-2583) as a twin-map update:
`this.twin = edge; edge.twin = this`. -/
def setTwinOp {E : Type} [DecidableEq E] (m : E → Option E) (x y : E) : E → Option E :=
  fun k => if k = x then some y else if k = y then some x else m k

/-- A sequence of `setTwin` calls applied in program order. -/
def applyOps {E : Type} [DecidableEq E] : (E → Option E) → List (E × E) → E → Option E
  | m, [] => m
  | m, (x, y) :: rest => applyOps (setTwinOp m x y) rest

/-- The all-`null` twin map of freshly created half-edges. -/
def emptyTwin {E : Type} : E → Option E := fun _ => none

/-- My own append-map (`List.flatMap`), recursed so its equations are
directly available. -/
def catMap {β E : Type} (f : β → List E) : List β → List E
  | [] => []
  | x :: xs => f x ++ catMap f xs

/-- The half-edges of the initial simplex: face index (creation order) and
slot in the face's 3-cycle (`face.getEdge(k)` is slot `k`; `getEdge(-1)` is
slot 2). -/
def simplexStitchNeg : List ((Fin 4 × Fin 3) × (Fin 4 × Fin 3)) :=
  catMap (fun i : Fin 3 =>
      [((i.succ, 2), ((0 : Fin 4), i + 1)),
       ((i.succ, 1), ((i + 1).succ, 0))])
    (List.finRange 3)

/-- The stitching `setTwin` sequence of the `distanceToPoint < 0` branch
(lines 2316-2322): for `i = 0,1,2` with `j = (i+1) % 3`,
`faces[i+1].getEdge(2).setTwin(faces[0].getEdge(j))` and
`faces[i+1].getEdge(1).setTwin(faces[j+1].getEdge(0))`. -/
def initialTwinNeg : Fin 4 × Fin 3 → Option (Fin 4 × Fin 3) :=
  applyOps emptyTwin simplexStitchNeg

/-- The stitching `setTwin` sequence of the other branch (lines 2332-2338):
`faces[i+1].getEdge(2).setTwin(faces[0].getEdge((3-i) % 3))` and
`faces[i+1].getEdge(0).setTwin(faces[j+1].getEdge(1))`; `(3-i) % 3` is
`-i` in `Fin 3`. -/
def simplexStitchPos : List ((Fin 4 × Fin 3) × (Fin 4 × Fin 3)) :=
  catMap (fun i : Fin 3 =>
      [((i.succ, 2), ((0 : Fin 4), 0 - i)),
       ((i.succ, 0), ((i + 1).succ, 1))])
    (List.finRange 3)

/-- The twin map after the positive-branch stitching. -/
def initialTwinPos : Fin 4 × Fin 3 → Option (Fin 4 × Fin 3) :=
  applyOps emptyTwin simplexStitchPos

/-- The `next` links set once by `Face.create` (lines 2502-2514):
`e0.next = e1; e1.next = e2; e2.next = e0` — never mutated afterwards. -/
def createNext : Fin 3 → Fin 3
  | 0 => 1
  | 1 => 2
  | 2 => 0

/-- The `prev` links set by `Face.create`: `e2.prev = e1` reversed reading:
`e0.prev = e2; e1.prev = e0; e2.prev = e1`. -/
def createPrev : Fin 3 → Fin 3
  | 0 => 2
  | 1 => 0
  | 2 => 1

/-- A half-edge during `addNewFaces`: an edge of the pre-existing mesh
(`α` is the caller's edge identity type) or slot `s` of the `i`-th new face
(`this.newFaces[i]`, in creation order). -/
inductive StEdge (α : Type) where
  | old : α → StEdge α
  | new : ℕ → Fin 3 → StEdge α
deriving DecidableEq

/-- The twin map of the pre-existing mesh, lifted: new edges start with
`twin = null`. -/
def liftOld {α : Type} (oldTwin : α → Option α) : StEdge α → Option (StEdge α)
  | .old a => (oldTwin a).map .old
  | .new _ _ => none

/-- The `setTwin` sequence of `addNewFaces` (lines 2440-2459) for a horizon
of length `n + 1` (the loop body requires a nonempty horizon: with an empty
one, `firstSideEdge.next` would throw), in program order.  Iteration `k`
runs `addAdjoiningFace`, which stitches the new face's
`getEdge(-1)` (slot 2) to `horizonEdge.twin` (`outer k`), then for `k ≥ 1`
stitches `sideEdge.next` (slot 1 of face `k`) to
`previousSideEdge` (slot 0 of face `k - 1`); the final join stitches slot 1
of face 0 to slot 0 of the last face `n`. -/
def addNewFacesOps {α : Type} (n : ℕ) (outer : ℕ → α) :
    List (StEdge α × StEdge α) :=
  catMap (fun k =>
      (StEdge.new k 2, StEdge.old (outer k)) ::
        (if k = 0 then [] else [(StEdge.new k 1, StEdge.new (k - 1) 0)]))
    (List.range (n + 1))
  ++ [(StEdge.new 0 1, StEdge.new n 0)]

/-- The twin map after `addNewFaces` has stitched the fan of new faces. -/
def addNewFacesTwin {α : Type} [DecidableEq α] (n : ℕ) (outer : ℕ → α)
    (oldTwin : α → Option α) : StEdge α → Option (StEdge α) :=
  applyOps (liftOld oldTwin) (addNewFacesOps n outer)

/-- Liveness after `addNewFaces` with a horizon of length `n + 1`: the live
edges are the three edges of each of the `n + 1` new faces, plus the old
edges whose face survived (was not engulfed by the horizon walk). -/
def liveSt {α : Type} (n : ℕ) (liveOld : α → Prop) : StEdge α → Prop
  | .old a => liveOld a
  | .new k _ => k < n + 1

/-- All edge keys touched by a `setTwin` sequence. -/
def opKeys {E : Type} (ops : List (E × E)) : List E :=
  catMap (fun p => [p.1, p.2]) ops

/-- A vertex node of the `assigned` ledger: its point and (the identity of)
the face able to see it (`vertex.face`).  Face object identity is embedded
as a ℕ id resolved by an environment `fd`. -/
structure VNode where
  point : Vec3
  face : ℕ
deriving DecidableEq, Repr

/-- `ConvexHull.nextVertexToAdd` (lines 2377-2396): take the face owning the
first assigned vertex; walk that face's outside run (the contiguous ledger
span whose nodes reference that face, starting at the ledger head) and
return the vertex with maximal `distanceToPoint`, strict improvement over
`maxDistance = 0`, first found wins. -/
def nextVertexToAdd (fd : ℕ → FaceData) (assigned : List VNode) : Option VNode :=
  match assigned with
  | [] => none
  | first :: rest =>
    let eyeFace := first.face
    let run := (first :: rest).takeWhile fun v => decide (v.face = eyeFace)
    (scanMax (fun _ => true)
        (fun v => some (distanceToPoint (fd eyeFace) v.point)) run 0 none).2

/-- Positivity of an embedded extended-real interval end: every finite value
it may carry is strictly positive. -/
def posOpt (t : Option ℚ) : Prop := ∀ q, t = some q → 0 < q

/-- The four corners of the unit square in the plane `z = 0`: a coplanar,
non-collinear input. -/
def squarePoints : List Vec3 := [⟨0, 0, 0⟩, ⟨1, 0, 0⟩, ⟨0, 1, 0⟩, ⟨1, 1, 0⟩]

/-- The six face planes of the axis-aligned unit cube `[0,1]^3`, with
outward unit normals (exactly the plane data the twelve triangular hull
faces of Scenario B carry, deduplicated). -/
def cubeFaces : List FaceData :=
  [⟨⟨1, 0, 0⟩, 1⟩, ⟨⟨-1, 0, 0⟩, 0⟩, ⟨⟨0, 1, 0⟩, 1⟩,
   ⟨⟨0, -1, 0⟩, 0⟩, ⟨⟨0, 0, 1⟩, 1⟩, ⟨⟨0, 0, -1⟩, 0⟩]

/-- A ray origin on the cube face `x = 1`. -/
def cubeRayOrigin : Vec3 := ⟨1, 1/2, 1/2⟩

/-- A ray direction pointing away from the cube along `+x`. -/
def cubeRayDir : Vec3 := ⟨1, 0, 0⟩

/-- A sample environment for the `addNewFaces` topology theorem: old-edge
identities are `Fin 6`; the three horizon-twin (outer) edges are `0, 1, 2`. -/
def exampleOuter : ℕ → Fin 6 := fun k => ⟨k % 6, Nat.mod_lt _ (by norm_num)⟩

/-- A sample pre-existing twin map: edges `4` and `5` are mutual twins of a
surviving pair; edge `3` (the deleted horizon edge) and the outer edges
need no constraint. -/
def exampleOldTwin : Fin 6 → Option (Fin 6) :=
  fun a => if a = 4 then some 5 else if a = 5 then some 4 else none

/-- Sample liveness: the deleted horizon edge `3` is dead, the rest live. -/
def exampleLive : Fin 6 → Prop := fun a => a ≠ 3

/-- A sample face environment for the eye-vertex selection: every face id
resolves to the plane `z = 0` with upward normal. -/
def exampleFd : ℕ → FaceData := fun _ => ⟨⟨0, 0, 1⟩, 0⟩

/-! ### The Hull Grower: the full incremental loop of `compute`
(lines 2479-2489) and everything it calls.

The loop's sole irrational operation is the square root inside
`Triangle.getNormal` / `getArea` (`Vector3.length`), reached from
`Face.compute`.  JavaScript's `Math.sqrt` is a fixed deterministic
function, so the embedding threads an explicit scalar square-root function
`sqrtF` (kept in the builder state) through the build; every theorem below
quantifies over it.  Mutable pointer structure is embedded as an arena:
faces are a growing array addressed by creation index, a half-edge is the
pair (face index, slot in the face's 3-cycle), the twin pointers are one
map updated by `setTwinOp` exactly where the source calls `setTwin`, and
the doubly-linked assigned/unassigned vertex ledgers are index lists with
the splice operations (`insertBefore`, `append`, `appendChain`, `remove`,
`removeSubList`) acting on them.  The recursion of `computeHorizon` and the
outer `while` of `compute` are given explicit fuel: the source's recursion
terminates because every visit marks a fresh face `Deleted` (at most
`faces.length` calls) and every loop iteration consumes its eye vertex for
good (at most `vertices.length` iterations), so the fuel passed in
(`faces.length + 1`, `points.length`) is never exhausted on such runs;
exhaustion — like the `TypeError` exits of unreachable `null` dereferences —
is embedded as `none`. -/

/-- The record of one `Face` of the growing mesh: the head vertex index of
each of its three half-edge slots (`Face.create(a, b, c)` puts `a, b, c` at
slots `0, 1, 2`), the geometric data set by `Face.compute`, the
`Visible`/`Deleted` mark (`true` = Visible), and the `outside` reference. -/
structure FaceRec where
  va : ℕ
  vb : ℕ
  vc : ℕ
  normal : Vec3
  midpoint : Vec3
  area : ℚ
  constant : ℚ
  mark : Bool
  outside : Option ℕ

/-- The head vertex stored at slot `s` of a face (`Face.create(a, b, c)`
puts `a, b, c` at slots `0, 1, 2`). -/
def vertAt (fr : FaceRec) : Fin 3 → ℕ
  | 0 => fr.va
  | 1 => fr.vb
  | 2 => fr.vc

/-- Fallback face record for arena lookups (every lookup the code performs
is in bounds). -/
def faceRecD : FaceRec :=
  { va := 0, vb := 0, vc := 0, normal := vzero, midpoint := vzero, area := 0, constant := 0,
    mark := true, outside := none }

/-- `Face.create(a, b, c)` followed by `Face.compute` (lines 2502-2543).
`compute` reads the triangle as `(edge.tail, edge.head, edge.next.head)`
which is `(c, a, b)`; `Triangle.getNormal` for a triangle `(A, B, C)`
returns `(C - B) × (A - B)` normalized — `(b - a) × (c - a)` here —
scaled by `1 / sqrt(lengthSq)` when `lengthSq > 0` and the zero vector
otherwise; `getMidpoint` is the vertex average; `getArea` is half the
length of the same cross product; `constant = normal ⬝ midpoint`. -/
def mkFace (sqrtFn : ℚ → ℚ) (points : List Vec3) (va vb vc : ℕ) : FaceRec :=
  let qa := points.getD va vzero
  let qb := points.getD vb vzero
  let qc := points.getD vc vzero
  let n := cross (sub qb qa) (sub qc qa)
  let nsq := dot n n
  let normal := if 0 < nsq then smul (1 / sqrtFn nsq) n else vzero
  let midpoint := smul (1 / 3) (add (add qa qb) qc)
  { va := va, vb := vb, vc := vc
    normal := normal
    midpoint := midpoint
    area := sqrtFn nsq / 2
    constant := dot normal midpoint
    mark := true
    outside := none }

/-- First-match association-list lookup: the map representation of a
mutable pointer field, where an assignment prepends an entry and so shadows
every earlier one. -/
def lookupE {E F : Type} [DecidableEq E] : List (E × F) → E → Option F
  | [], _ => none
  | (k, w) :: rest, e => if e = k then some w else lookupE rest e

/-- `HalfEdge.setTwin(edge)` (lines 2579-2583) on the twin map: assigns
BOTH directions (`this.twin = edge; edge.twin = this`); prepending makes
the newest assignment win on lookup. -/
def twinSet (m : List ((ℕ × Fin 3) × (ℕ × Fin 3))) (x y : ℕ × Fin 3) :
    List ((ℕ × Fin 3) × (ℕ × Fin 3)) :=
  (x, y) :: (y, x) :: m

/-- The mutable state of one `ConvexHull` build: the wrapped input points,
the face arena, the twin map, `vertex.face` back-references, the two vertex
ledgers, the tolerance, the per-iteration `newFaces` scratch list, and the
square-root function standing for `Math.sqrt`. -/
structure BuildState where
  sqrtF : ℚ → ℚ
  points : List Vec3
  faces : List FaceRec
  twin : List ((ℕ × Fin 3) × (ℕ × Fin 3))
  vertFace : List (ℕ × ℕ)
  assigned : List ℕ
  unassigned : List ℕ
  tolerance : ℚ
  newFaces : List ℕ

/-- Arena lookup of a face. -/
def getFaceR (st : BuildState) (f : ℕ) : FaceRec := st.faces.getD f faceRecD

/-- Arena update of a face. -/
def setFaceR (st : BuildState) (f : ℕ) (fr : FaceRec) : BuildState :=
  { st with faces := st.faces.set f fr }

/-- The point wrapped by vertex `v`. -/
def pointOf (st : BuildState) (v : ℕ) : Vec3 := st.points.getD v vzero

/-- `Face.distanceToPoint` on a face record. -/
def distFR (fr : FaceRec) (p : Vec3) : ℚ := dot fr.normal p - fr.constant

/-- `HalfEdge.head`: the head vertex of edge `(f, s)`. -/
def edgeHead (st : BuildState) (e : ℕ × Fin 3) : ℕ := vertAt (getFaceR st e.1) e.2

/-- `HalfEdge.tail`: the head vertex of the previous edge in the cycle. -/
def edgeTail (st : BuildState) (e : ℕ × Fin 3) : ℕ :=
  vertAt (getFaceR st e.1) (createPrev e.2)

/-- `HalfEdge.next` (set once by `Face.create`). -/
def edgeNext (e : ℕ × Fin 3) : ℕ × Fin 3 := (e.1, createNext e.2)

/-- `VertexList.insertBefore(target, vertex)` on the index-list ledger. -/
def insertBeforeL (target v : ℕ) : List ℕ → List ℕ
  | [] => [v]
  | x :: xs => if x = target then v :: x :: xs else x :: insertBeforeL target v xs

/-- The position of a vertex in a ledger (its node, as an index). -/
def idxOfL (v : ℕ) : List ℕ → ℕ
  | [] => 0
  | x :: xs => if x = v then 0 else idxOfL v xs + 1

/-- `vertex.next` in a ledger: the successor of `v` in list order. -/
def nextOfL (v : ℕ) : List ℕ → Option ℕ
  | [] => none
  | [_] => none
  | x :: y :: xs => if x = v then some y else nextOfL v (y :: xs)

/-- `ConvexHull.addVertexToFace` (lines 2109-2118): set `vertex.face`,
splice the vertex into the assigned ledger before `face.outside` (or append
when the face had none), and point `face.outside` at it. -/
def addVertexToFaceS (st : BuildState) (v f : ℕ) : BuildState :=
  let st1 := { st with vertFace := (v, f) :: st.vertFace }
  let fr := getFaceR st1 f
  let st2 :=
    match fr.outside with
    | none => { st1 with assigned := st1.assigned ++ [v] }
    | some o => { st1 with assigned := insertBeforeL o v st1.assigned }
  setFaceR st2 f { fr with outside := some v }

/-- `ConvexHull.removeVertexFromFace` (lines 2120-2133): move
`face.outside` to the successor when it still references this face, else
clear it; remove the vertex from the assigned ledger. -/
def removeVertexFromFaceS (st : BuildState) (v f : ℕ) : BuildState :=
  let fr := getFaceR st f
  let fr2 :=
    if fr.outside = some v then
      match nextOfL v st.assigned with
      | some w =>
        if lookupE st.vertFace w = some f then { fr with outside := some w }
        else { fr with outside := none }
      | none => { fr with outside := none }
    else fr
  let st1 := setFaceR st f fr2
  { st1 with assigned := st1.assigned.erase v }

/-- `ConvexHull.removeAllVerticesFromFace` (lines 2135-2149): detach the
face's contiguous outside run (from `face.outside` while the nodes still
reference this face) from the assigned ledger and return it; `none` when
the face had no outside vertices. -/
def removeAllVerticesFromFaceS (st : BuildState) (f : ℕ) :
    BuildState × Option (List ℕ) :=
  let fr := getFaceR st f
  match fr.outside with
  | none => (st, none)
  | some start =>
    let i := idxOfL start st.assigned
    let tailL := st.assigned.drop (i + 1)
    let more := tailL.takeWhile (fun w => decide (lookupE st.vertFace w = some f))
    let st1 := setFaceR st f { fr with outside := none }
    ({ st1 with assigned := st1.assigned.take i ++ tailL.drop more.length },
      some (start :: more))

/-- `ConvexHull.deleteFaceVertices` (lines 2151-2178): reclaim the face's
outside run — into the unassigned pool (`appendChain`) when no absorbing
face is given, else vertex by vertex into the absorbing face when it can
see it beyond the tolerance.  (This build only ever calls it without an
absorbing face, from `computeHorizon`.) -/
def deleteFaceVerticesS (st : BuildState) (f : ℕ) (absorbing : Option ℕ) : BuildState :=
  match removeAllVerticesFromFaceS st f with
  | (st1, none) => st1
  | (st1, some run) =>
    match absorbing with
    | none => { st1 with unassigned := st1.unassigned ++ run }
    | some g =>
      run.foldl (fun st2 v =>
        let d := distFR (getFaceR st2 g) (pointOf st2 v)
        if d > st2.tolerance then addVertexToFaceS st2 v g
        else { st2 with unassigned := st2.unassigned ++ [v] }) st1

/-- The inner face scan of `resolveUnassignedPoints` (lines 2186-2198):
over the new faces, skipping non-`Visible` ones, strict-improvement argmax
against a running maximum started at the tolerance, with the early `break`
once the maximum exceeds `1000 * tolerance`. -/
def resolveScan (st : BuildState) (p : Vec3) :
    List ℕ → ℚ → Option ℕ → ℚ × Option ℕ
  | [], m, b => (m, b)
  | g :: rest, m, b =>
    let fr := getFaceR st g
    if fr.mark then
      let d := distFR fr p
      let m2 := if d > m then d else m
      let b2 := if d > m then some g else b
      if m2 > 1000 * st.tolerance then (m2, b2)
      else resolveScan st p rest m2 b2
    else resolveScan st p rest m b

/-- `ConvexHull.resolveUnassignedPoints` (lines 2180-2207): walk the
unassigned chain (buffering the successor, so the walk follows the
pre-state list) and assign each vertex to the best new face exceeding the
tolerance, if any.  The stale unassigned links the JavaScript leaves behind
are never read again: `addVertexToHull` clears the list before the next
fill. -/
def resolveUnassignedPointsS (st : BuildState) (newFs : List ℕ) : BuildState :=
  st.unassigned.foldl (fun st1 v =>
    match (resolveScan st1 (pointOf st1 v) newFs st1.tolerance none).2 with
    | some g => addVertexToFaceS st1 v g
    | none => st1) st

/-- The outside run of face `f` starting at `face.outside = start`: the
do-while walk of `nextVertexToAdd` over ledger successors while they still
reference `f`. -/
def outsideRun (st : BuildState) (f : ℕ) (start : ℕ) : List ℕ :=
  start :: (st.assigned.drop (idxOfL start st.assigned + 1)).takeWhile
    (fun w => decide (lookupE st.vertFace w = some f))

/-- `ConvexHull.nextVertexToAdd` (lines 2377-2396) over the build state.
The outer `none` embeds the `TypeError` of a `null` dereference (a first
assigned vertex with no face, or a face with no outside vertex — the
ledger invariants make both unreachable); `some none` is the `undefined`
return that exits the `while` loop (empty assigned ledger, or a scan whose
running maximum `0` is never strictly beaten, leaving `eyeVertex`
undefined); `some (some v)` is a found eye vertex: the strict-improvement
argmax over the first face's outside run. -/
def nextVertexToAddS (st : BuildState) : Option (Option ℕ) :=
  match st.assigned with
  | [] => some none
  | first :: _ =>
    match lookupE st.vertFace first with
    | none => none
    | some f =>
      match (getFaceR st f).outside with
      | none => none
      | some start =>
        some (scanMax (fun _ => true)
          (fun v => some (distFR (getFaceR st f) (pointOf st v)))
          (outsideRun st f start) 0 none).2

/-- `ConvexHull.computeHorizon` (lines 2400-2427): reclaim the face's
outside vertices into the unassigned pool, mark the face `Deleted`, then
walk its edges in order — all three starting from `getEdge(0)` when there
is no cross edge, else the two edges after the cross edge — recursing
depth-first across each twin into a still-`Visible` neighbour that sees
the eye point beyond the tolerance, and recording the edge as a horizon
edge otherwise.  The do-while is the `Option`-monadic fold threading the
state/horizon pair, its `none` a `null`-twin dereference; the fuel bounds
the recursion depth (each visit marks a fresh `Visible` face `Deleted`,
so `faces.length + 1` is never exhausted). -/
def computeHorizonS : ℕ → Vec3 → Option (ℕ × Fin 3) → ℕ → BuildState →
    List (ℕ × Fin 3) → Option (BuildState × List (ℕ × Fin 3))
  | 0, _, _, _, _, _ => none
  | fuel + 1, eye, crossEdge, f, st, horizon =>
    let st1 := deleteFaceVerticesS st f none
    let fr := getFaceR st1 f
    let st2 := setFaceR st1 f { fr with mark := false }
    let edges :=
      match crossEdge with
      | none => [(f, (0 : Fin 3)), (f, 1), (f, 2)]
      | some ce => [edgeNext ce, edgeNext (edgeNext ce)]
    edges.foldlM (fun p e =>
      match lookupE p.1.twin e with
      | none => none
      | some te =>
        if (getFaceR p.1 te.1).mark then
          if distFR (getFaceR p.1 te.1) eye > p.1.tolerance then
            computeHorizonS fuel eye (some te) te.1 p.1 p.2
          else some (p.1, p.2 ++ [e])
        else some (p.1, p.2)) (st2, horizon)

/-- `ConvexHull.addAdjoiningFace` (lines 2429-2437): create the face
`(eyeVertex, horizonEdge.tail, horizonEdge.head)` at the end of the arena,
stitch its `getEdge(-1)` (slot 2) to the horizon edge's twin, and return
its `getEdge(0)`.  `none` embeds the `null`-twin dereference. -/
def addAdjoiningFaceS (st : BuildState) (eye : ℕ) (he : ℕ × Fin 3) :
    Option (BuildState × (ℕ × Fin 3)) :=
  let n := st.faces.length
  let fr := mkFace st.sqrtF st.points eye (edgeTail st he) (edgeHead st he)
  let st1 := { st with faces := st.faces ++ [fr] }
  match lookupE st1.twin he with
  | none => none
  | some ht =>
    some ({ st1 with twin := twinSet st1.twin (n, (2 : Fin 3)) ht }, (n, (0 : Fin 3)))

/-- The fan loop of `addNewFaces` (lines 2444-2456), threading
`firstSideEdge` and `previousSideEdge` and pushing each new face onto
`newFaces`. -/
def addNewFacesGo (eye : ℕ) :
    List (ℕ × Fin 3) → BuildState → Option (ℕ × Fin 3) → Option (ℕ × Fin 3) →
    Option (BuildState × Option (ℕ × Fin 3) × Option (ℕ × Fin 3))
  | [], st, first, prev => some (st, first, prev)
  | he :: rest, st, first, prev =>
    match addAdjoiningFaceS st eye he with
    | none => none
    | some (st1, sideEdge) =>
      let st2 :=
        match first, prev with
        | some _, some pe => { st1 with twin := twinSet st1.twin (edgeNext sideEdge) pe }
        | _, _ => st1
      let first2 := match first with | none => some sideEdge | some fe => some fe
      let st3 := { st2 with newFaces := st2.newFaces ++ [sideEdge.1] }
      addNewFacesGo eye rest st3 first2 (some sideEdge)

/-- `ConvexHull.addNewFaces` (lines 2440-2459): reset `newFaces`, run the
fan loop, then perform the final join
`firstSideEdge.next.setTwin(previousSideEdge)`.  An empty horizon dereferences
the `null` `firstSideEdge` in JavaScript: `none`. -/
def addNewFacesS (st : BuildState) (eye : ℕ) (horizon : List (ℕ × Fin 3)) :
    Option BuildState :=
  match addNewFacesGo eye horizon { st with newFaces := [] } none none with
  | none => none
  | some (st1, some fe, some pe) =>
    some { st1 with twin := twinSet st1.twin (edgeNext fe) pe }
  | some (_, _, _) => none

/-- `ConvexHull.addVertexToHull` (lines 2462-2472): clear the unassigned
pool, detach the eye vertex from its face, compute the horizon from that
face, build the fan of new faces, and reassign the orphaned vertices to
them. -/
def addVertexToHullS (st : BuildState) (eye : ℕ) : Option BuildState :=
  let st0 := { st with unassigned := [] }
  match lookupE st0.vertFace eye with
  | none => none
  | some f =>
    let st1 := removeVertexFromFaceS st0 eye f
    match computeHorizonS (st1.faces.length + 1) (pointOf st1 eye) none f st1 [] with
    | none => none
    | some (st2, horizon) =>
      match addNewFacesS st2 eye horizon with
      | none => none
      | some st3 => some (resolveUnassignedPointsS st3 st3.newFaces)

/-- The `while ((vertex = this.nextVertexToAdd()) !== undefined)` loop of
`compute` (lines 2483-2485), with fuel bounding the iterations (each one
permanently consumes its eye vertex, so `points.length` suffices). -/
def computeLoopS (fuel : ℕ) (st : BuildState) : Option BuildState :=
  match nextVertexToAddS st with
  | none => none
  | some none => some st
  | some (some eye) =>
    match fuel with
    | 0 => none
    | fuel2 + 1 =>
      match addVertexToHullS st eye with
      | none => none
      | some st1 => computeLoopS fuel2 st1

/-- The twin map left by the simplex stitching: the `setTwin` sequence of
the taken branch applied in program order to the all-`null` map, the face
indices widened from `Fin 4` to the arena's `ℕ`. -/
def initialTwinList (ops : List ((Fin 4 × Fin 3) × (Fin 4 × Fin 3))) :
    List ((ℕ × Fin 3) × (ℕ × Fin 3)) :=
  (ops.map (fun op => ((op.1.1.val, op.1.2), (op.2.1.val, op.2.2)))).foldl
    (fun m op => twinSet m op.1 op.2) []

/-- The build state right after `computeInitialHull` (lines 2250-2364)
including the tolerance from `computeExtremes`, the four simplex faces
with their `Face.compute` geometry, the twin stitching of the taken
branch, and the initial assignment of every remaining vertex to the
best of the four faces (running maximum started at the tolerance,
lines 2345-2361). -/
def computeInitialState (sqrtFn : ℚ → ℚ) (points : List Vec3) : Option BuildState :=
  match points with
  | [] => none
  | p0 :: rest =>
    match computeInitialHull (p0 :: rest) with
    | .error _ => none
    | .ok h =>
      let st0 : BuildState :=
        { sqrtF := sqrtFn
          points := p0 :: rest
          faces := h.facesTri.map (fun t => mkFace sqrtFn (p0 :: rest) t.1 t.2.1 t.2.2)
          twin := initialTwinList
            (if h.negBranch then simplexStitchNeg else simplexStitchPos)
          vertFace := []
          assigned := []
          unassigned := []
          tolerance := toleranceOf (initialExt p0 (p0 :: rest))
          newFaces := [] }
      some ((withIdx 0 (p0 :: rest)).foldl (fun st iv =>
        if iv.1 = h.i0 ∨ iv.1 = h.i1 ∨ iv.1 = h.i2 ∨ iv.1 = h.i3 then st
        else
          match (scanMax (fun _ => true)
              (fun j => some (distFR (getFaceR st j) iv.2)) [0, 1, 2, 3]
              st.tolerance none).2 with
          | some j => addVertexToFaceS st iv.1 j
          | none => st) st0)

/-- The finished hull's face list, as `reindexFaces` (lines 2366-2376)
leaves it: the `Visible` faces in creation order (the `Deleted` ones
filtered out), each exposing its three vertex indices, its normal and its
plane constant.  (`cleanup` only clears the ledgers and scratch list,
which are not part of the output.) -/
def hullOutput (st : BuildState) : List ((ℕ × ℕ × ℕ) × Vec3 × ℚ) :=
  (st.faces.filter (fun fr => fr.mark)).map
    (fun fr => ((fr.va, fr.vb, fr.vc), fr.normal, fr.constant))

/-- The whole build, `setFromPoints`/`compute` end to end: initial state
(tolerance, simplex, initial assignment), the incremental loop, and the
finalized face list.  `none` embeds the abnormal exits (a `TypeError` on
degenerate/short input, the unreachable `null` dereferences, fuel
exhaustion). -/
def buildHull (sqrtFn : ℚ → ℚ) (points : List Vec3) :
    Option (List ((ℕ × ℕ × ℕ) × Vec3 × ℚ)) :=
  match computeInitialState sqrtFn points with
  | none => none
  | some st =>
    match computeLoopS points.length st with
    | none => none
    | some st1 => some (hullOutput st1)

/-- A non-degenerate tetrahedron input (Scenario A). -/
def tetraPoints : List Vec3 := [⟨0, 0, 0⟩, ⟨1, 0, 0⟩, ⟨0, 1, 0⟩, ⟨0, 0, 1⟩]

/-- The tetrahedron with a fifth point outside it, driving the incremental
loop through one full `addVertexToHull` round (horizon recursion, fan
stitching, reassignment). -/
def fivePoints : List Vec3 :=
  [⟨0, 0, 0⟩, ⟨1, 0, 0⟩, ⟨0, 1, 0⟩, ⟨0, 0, 1⟩, ⟨1, 1, 1⟩]

/-- The state the initial-hull phase leaves for `fivePoints` (with the
identity standing in for `Math.sqrt`): the base simplex spans vertices
`0, 1, 4, 2`, vertex `3` is assigned to face `0`. -/
def fiveInit : BuildState :=
  { sqrtF := fun q => q
    points := fivePoints
    faces :=
      [⟨0, 1, 4, ⟨0, -1/2, 1/2⟩, ⟨2/3, 1/3, 1/3⟩, 1, 0, true, some 3⟩,
       ⟨2, 1, 0, ⟨0, 0, -1⟩, ⟨1/3, 1/3, 0⟩, 1/2, 0, true, none⟩,
       ⟨2, 4, 1, ⟨1/3, 1/3, -1/3⟩, ⟨2/3, 2/3, 1/3⟩, 3/2, 1/3, true, none⟩,
       ⟨2, 0, 4, ⟨-1/2, 0, 1/2⟩, ⟨1/3, 2/3, 1/3⟩, 1, 0, true, none⟩]
    twin :=
      [((3, 1), (1, 0)), ((1, 0), (3, 1)), ((3, 2), (0, 0)), ((0, 0), (3, 2)),
       ((2, 1), (3, 0)), ((3, 0), (2, 1)), ((2, 2), (0, 2)), ((0, 2), (2, 2)),
       ((1, 1), (2, 0)), ((2, 0), (1, 1)), ((1, 2), (0, 1)), ((0, 1), (1, 2))]
    vertFace := [(3, 0)]
    assigned := [3]
    unassigned := []
    tolerance := 9 / 4503599627370496
    newFaces := [] }

/-- The state after the one `addVertexToHull` round of the `fivePoints`
build: faces `0` and `3` deleted, the four-face fan around vertex `3`
appended and stitched. -/
def fiveFinal : BuildState :=
  { sqrtF := fun q => q
    points := fivePoints
    faces :=
      [⟨0, 1, 4, ⟨0, -1/2, 1/2⟩, ⟨2/3, 1/3, 1/3⟩, 1, 0, false, none⟩,
       ⟨2, 1, 0, ⟨0, 0, -1⟩, ⟨1/3, 1/3, 0⟩, 1/2, 0, true, none⟩,
       ⟨2, 4, 1, ⟨1/3, 1/3, -1/3⟩, ⟨2/3, 2/3, 1/3⟩, 3/2, 1/3, true, none⟩,
       ⟨2, 0, 4, ⟨-1/2, 0, 1/2⟩, ⟨1/3, 2/3, 1/3⟩, 1, 0, false, none⟩,
       ⟨3, 4, 2, ⟨-1/3, 1/3, 1/3⟩, ⟨1/3, 2/3, 2/3⟩, 3/2, 1/3, true, none⟩,
       ⟨3, 2, 0, ⟨-1, 0, 0⟩, ⟨0, 1/3, 1/3⟩, 1/2, 0, true, none⟩,
       ⟨3, 0, 1, ⟨0, -1, 0⟩, ⟨1/3, 0, 1/3⟩, 1/2, 0, true, none⟩,
       ⟨3, 1, 4, ⟨1/3, -1/3, 1/3⟩, ⟨2/3, 1/3, 2/3⟩, 3/2, 1/3, true, none⟩]
    twin :=
      [((4, 1), (7, 0)), ((7, 0), (4, 1)), ((7, 1), (6, 0)), ((6, 0), (7, 1)),
       ((7, 2), (2, 2)), ((2, 2), (7, 2)), ((6, 1), (5, 0)), ((5, 0), (6, 1)),
       ((6, 2), (1, 2)), ((1, 2), (6, 2)), ((5, 1), (4, 0)), ((4, 0), (5, 1)),
       ((5, 2), (1, 0)), ((1, 0), (5, 2)), ((4, 2), (2, 1)), ((2, 1), (4, 2)),
       ((3, 1), (1, 0)), ((1, 0), (3, 1)), ((3, 2), (0, 0)), ((0, 0), (3, 2)),
       ((2, 1), (3, 0)), ((3, 0), (2, 1)), ((2, 2), (0, 2)), ((0, 2), (2, 2)),
       ((1, 1), (2, 0)), ((2, 0), (1, 1)), ((1, 2), (0, 1)), ((0, 1), (1, 2))]
    vertFace := [(3, 0)]
    assigned := []
    unassigned := []
    tolerance := 9 / 4503599627370496
    newFaces := [4, 5, 6, 7] }

/-- `fiveInit` after `removeVertexFromFace(eyeVertex, eyeVertex.face)`:
the eye vertex `3` is out of the assigned ledger and face `0` has lost its
outside reference. -/
def fiveDetached : BuildState :=
  { sqrtF := fun q => q
    points := fivePoints
    faces :=
      [⟨0, 1, 4, ⟨0, -1/2, 1/2⟩, ⟨2/3, 1/3, 1/3⟩, 1, 0, true, none⟩,
       ⟨2, 1, 0, ⟨0, 0, -1⟩, ⟨1/3, 1/3, 0⟩, 1/2, 0, true, none⟩,
       ⟨2, 4, 1, ⟨1/3, 1/3, -1/3⟩, ⟨2/3, 2/3, 1/3⟩, 3/2, 1/3, true, none⟩,
       ⟨2, 0, 4, ⟨-1/2, 0, 1/2⟩, ⟨1/3, 2/3, 1/3⟩, 1, 0, true, none⟩]
    twin :=
      [((3, 1), (1, 0)), ((1, 0), (3, 1)), ((3, 2), (0, 0)), ((0, 0), (3, 2)),
       ((2, 1), (3, 0)), ((3, 0), (2, 1)), ((2, 2), (0, 2)), ((0, 2), (2, 2)),
       ((1, 1), (2, 0)), ((2, 0), (1, 1)), ((1, 2), (0, 1)), ((0, 1), (1, 2))]
    vertFace := [(3, 0)]
    assigned := []
    unassigned := []
    tolerance := 9 / 4503599627370496
    newFaces := [] }

/-- `fiveDetached` after `computeHorizon` has visited face `0` (marking it
`Deleted`) but before it crosses into face `3`. -/
def fiveSeen0 : BuildState :=
  { sqrtF := fun q => q
    points := fivePoints
    faces :=
      [⟨0, 1, 4, ⟨0, -1/2, 1/2⟩, ⟨2/3, 1/3, 1/3⟩, 1, 0, false, none⟩,
       ⟨2, 1, 0, ⟨0, 0, -1⟩, ⟨1/3, 1/3, 0⟩, 1/2, 0, true, none⟩,
       ⟨2, 4, 1, ⟨1/3, 1/3, -1/3⟩, ⟨2/3, 2/3, 1/3⟩, 3/2, 1/3, true, none⟩,
       ⟨2, 0, 4, ⟨-1/2, 0, 1/2⟩, ⟨1/3, 2/3, 1/3⟩, 1, 0, true, none⟩]
    twin :=
      [((3, 1), (1, 0)), ((1, 0), (3, 1)), ((3, 2), (0, 0)), ((0, 0), (3, 2)),
       ((2, 1), (3, 0)), ((3, 0), (2, 1)), ((2, 2), (0, 2)), ((0, 2), (2, 2)),
       ((1, 1), (2, 0)), ((2, 0), (1, 1)), ((1, 2), (0, 1)), ((0, 1), (1, 2))]
    vertFace := [(3, 0)]
    assigned := []
    unassigned := []
    tolerance := 9 / 4503599627370496
    newFaces := [] }

/-- The state after the horizon walk of the `fivePoints` build: faces `0`
and `3` (the two that see the eye point) are `Deleted`. -/
def fiveSeen03 : BuildState :=
  { sqrtF := fun q => q
    points := fivePoints
    faces :=
      [⟨0, 1, 4, ⟨0, -1/2, 1/2⟩, ⟨2/3, 1/3, 1/3⟩, 1, 0, false, none⟩,
       ⟨2, 1, 0, ⟨0, 0, -1⟩, ⟨1/3, 1/3, 0⟩, 1/2, 0, true, none⟩,
       ⟨2, 4, 1, ⟨1/3, 1/3, -1/3⟩, ⟨2/3, 2/3, 1/3⟩, 3/2, 1/3, true, none⟩,
       ⟨2, 0, 4, ⟨-1/2, 0, 1/2⟩, ⟨1/3, 2/3, 1/3⟩, 1, 0, false, none⟩]
    twin :=
      [((3, 1), (1, 0)), ((1, 0), (3, 1)), ((3, 2), (0, 0)), ((0, 0), (3, 2)),
       ((2, 1), (3, 0)), ((3, 0), (2, 1)), ((2, 2), (0, 2)), ((0, 2), (2, 2)),
       ((1, 1), (2, 0)), ((2, 0), (1, 1)), ((1, 2), (0, 1)), ((0, 1), (1, 2))]
    vertFace := [(3, 0)]
    assigned := []
    unassigned := []
    tolerance := 9 / 4503599627370496
    newFaces := [] }

/-- What it means for position `(l1, v, l2)` of a scanned list to be the
spot where a strict-improvement scan settles: the winner `v` passes the
candidate test with value `d` strictly above the initial running maximum
`m`, every earlier candidate values strictly below `d` (so `v` is the
FIRST element attaining the maximum), and no later candidate beats `d`. -/
def firstFoundMax {β : Type} (cand : β → Bool) (dist : β → Option ℚ) (m : ℚ)
    (l1 : List β) (v : β) (l2 : List β) (d : ℚ) : Prop :=
  cand v = true ∧ dist v = some d ∧ m < d ∧
    (∀ w ∈ l1, cand w = true → ∀ e, dist w = some e → e < d) ∧
    (∀ w ∈ l2, cand w = true → ∀ e, dist w = some e → e ≤ d)

/-! Lemmas about the shared argmax scan. -/

theorem scanMax_unchanged {β : Type} (cand : β → Bool) (dist : β → Option ℚ) :
    ∀ (l : List β) (m : ℚ) (b : Option β),
      (∀ x ∈ l, cand x = true → dist x = none) →
      scanMax cand dist l m b = (m, b) := by
  intro l
  induction l with
  | nil => intro m b _; rfl
  | cons v rest ih =>
    intro m b h
    have hrest : ∀ x ∈ rest, cand x = true → dist x = none :=
      fun x hx => h x (List.mem_cons_of_mem _ hx)
    by_cases hc : cand v = true
    · have hd : dist v = none := h v (List.mem_cons_self _ _) hc
      simp only [scanMax, hc, if_true, hd]
      exact ih m b hrest
    · simp only [scanMax, hc, if_false]
      exact ih m b hrest

theorem scanMax_isSome {β : Type} (cand : β → Bool) (dist : β → Option ℚ) :
    ∀ (l : List β) (m : ℚ) (b : Option β),
      ((∃ u, b = some u) ∨ ∃ x ∈ l, cand x = true ∧ ∃ d, dist x = some d ∧ m < d) →
      ∃ v, (scanMax cand dist l m b).2 = some v := by
  intro l
  induction l with
  | nil =>
    intro m b h
    rcases h with ⟨u, hu⟩ | ⟨x, hx, _⟩
    · exact ⟨u, hu⟩
    · exact absurd hx (List.not_mem_nil x)
  | cons v rest ih =>
    intro m b h
    by_cases hc : cand v = true
    · cases hd : dist v with
      | none =>
        simp only [scanMax, hc, if_true, hd]
        apply ih m b
        rcases h with hb | ⟨x, hx, hcx, d, hdx, hmd⟩
        · exact Or.inl hb
        · rcases List.mem_cons.mp hx with rfl | hx2
          · rw [hd] at hdx; cases hdx
          · exact Or.inr ⟨x, hx2, hcx, d, hdx, hmd⟩
      | some d =>
        simp only [scanMax, hc, if_true, hd]
        by_cases hm : m < d
        · simp only [hm, if_true]
          exact ih d (some v) (Or.inl ⟨v, rfl⟩)
        · simp only [hm, if_false]
          apply ih m b
          rcases h with hb | ⟨x, hx, hcx, d', hdx, hmd⟩
          · exact Or.inl hb
          · rcases List.mem_cons.mp hx with rfl | hx2
            · rw [hd] at hdx
              cases hdx
              exact absurd hmd hm
            · exact Or.inr ⟨x, hx2, hcx, d', hdx, hmd⟩
    · simp only [scanMax, hc, if_false]
      apply ih m b
      rcases h with hb | ⟨x, hx, hcx, d, hdx, hmd⟩
      · exact Or.inl hb
      · rcases List.mem_cons.mp hx with rfl | hx2
        · rw [hcx] at hc; exact absurd rfl hc
        · exact Or.inr ⟨x, hx2, hcx, d, hdx, hmd⟩

theorem scanMax_split {β : Type} (cand : β → Bool) (dist : β → Option ℚ) :
    ∀ (l : List β) (m : ℚ) (b : Option β),
      (∀ u, b = some u → dist u = some m) →
      ∀ v, (scanMax cand dist l m b).2 = some v →
        (b = some v ∧ (scanMax cand dist l m b).1 = m ∧
          ∀ w ∈ l, cand w = true → ∀ e, dist w = some e → e ≤ m) ∨
        (∃ l1 l2 d, l = l1 ++ v :: l2 ∧ cand v = true ∧ dist v = some d ∧ m < d ∧
          (scanMax cand dist l m b).1 = d ∧
          (∀ w ∈ l1, cand w = true → ∀ e, dist w = some e → e < d) ∧
          (∀ w ∈ l2, cand w = true → ∀ e, dist w = some e → e ≤ d)) := by
  intro l
  induction l with
  | nil =>
    intro m b _ v hv
    exact Or.inl ⟨hv, rfl, fun w hw => absurd hw (List.not_mem_nil w)⟩
  | cons x rest ih =>
    intro m b hb v hv
    by_cases hc : cand x = true
    · cases hd : dist x with
      | none =>
        simp only [scanMax, hc, if_true, hd] at hv ⊢
        rcases ih m b hb v hv with ⟨h1, h2, h3⟩ | ⟨l1, l2, d, hsp, hcv, hdv, hmd, hfst, hpre, hsuf⟩
        · refine Or.inl ⟨h1, h2, ?_⟩
          intro w hw hcw e hdw
          rcases List.mem_cons.mp hw with rfl | hw2
          · rw [hd] at hdw; cases hdw
          · exact h3 w hw2 hcw e hdw
        · refine Or.inr ⟨x :: l1, l2, d, by rw [hsp]; rfl, hcv, hdv, hmd, hfst, ?_, hsuf⟩
          intro w hw hcw e hdw
          rcases List.mem_cons.mp hw with rfl | hw2
          · rw [hd] at hdw; cases hdw
          · exact hpre w hw2 hcw e hdw
      | some d =>
        by_cases hm : m < d
        · simp only [scanMax, hc, if_true, hd, hm] at hv ⊢
          have hb2 : ∀ u, (some x : Option β) = some u → dist u = some d := by
            intro u hu
            cases hu
            exact hd
          rcases ih d (some x) hb2 v hv with ⟨h1, h2, h3⟩ |
              ⟨l1, l2, d', hsp, hcv, hdv, hmd, hfst, hpre, hsuf⟩
          · cases h1
            refine Or.inr ⟨[], rest, d, rfl, hc, hd, hm, h2, ?_, h3⟩
            intro w hw
            exact absurd hw (List.not_mem_nil w)
          · refine Or.inr ⟨x :: l1, l2, d', by rw [hsp]; rfl, hcv, hdv, lt_trans hm hmd, hfst, ?_, hsuf⟩
            intro w hw hcw e hdw
            rcases List.mem_cons.mp hw with rfl | hw2
            · rw [hd] at hdw
              cases hdw
              exact hmd
            · exact hpre w hw2 hcw e hdw
        · simp only [scanMax, hc, if_true, hd, hm] at hv ⊢
          rcases ih m b hb v hv with ⟨h1, h2, h3⟩ |
              ⟨l1, l2, d', hsp, hcv, hdv, hmd, hfst, hpre, hsuf⟩
          · refine Or.inl ⟨h1, h2, ?_⟩
            intro w hw hcw e hdw
            rcases List.mem_cons.mp hw with rfl | hw2
            · rw [hd] at hdw
              cases hdw
              exact le_of_not_lt hm
            · exact h3 w hw2 hcw e hdw
          · refine Or.inr ⟨x :: l1, l2, d', by rw [hsp]; rfl, hcv, hdv, hmd, hfst, ?_, hsuf⟩
            intro w hw hcw e hdw
            rcases List.mem_cons.mp hw with rfl | hw2
            · rw [hd] at hdw
              cases hdw
              exact lt_of_le_of_lt (le_of_not_lt hm) hmd
            · exact hpre w hw2 hcw e hdw
    · simp only [scanMax, hc, if_false] at hv ⊢
      rcases ih m b hb v hv with ⟨h1, h2, h3⟩ |
          ⟨l1, l2, d, hsp, hcv, hdv, hmd, hfst, hpre, hsuf⟩
      · refine Or.inl ⟨h1, h2, ?_⟩
        intro w hw hcw e hdw
        rcases List.mem_cons.mp hw with rfl | hw2
        · rw [hcw] at hc; exact absurd rfl hc
        · exact h3 w hw2 hcw e hdw
      · refine Or.inr ⟨x :: l1, l2, d, by rw [hsp]; rfl, hcv, hdv, hmd, hfst, ?_, hsuf⟩
        intro w hw hcw e hdw
        rcases List.mem_cons.mp hw with rfl | hw2
        · rw [hcw] at hc; exact absurd rfl hc
        · exact hpre w hw2 hcw e hdw

/-! Lemmas about the index enumeration. -/

theorem mem_withIdx_bound {iv : ℕ × Vec3} :
    ∀ (k : ℕ) (l : List Vec3), iv ∈ withIdx k l → k ≤ iv.1 ∧ iv.1 < k + l.length := by
  intro k l
  induction l generalizing k with
  | nil => intro h; exact absurd h (List.not_mem_nil iv)
  | cons p ps ih =>
    intro h
    rcases List.mem_cons.mp h with rfl | h2
    · simp
    · have := ih (k + 1) h2
      constructor
      · omega
      · simp only [List.length_cons]
        omega

theorem getD_of_mem_withIdx {iv : ℕ × Vec3} :
    ∀ (k : ℕ) (l : List Vec3), iv ∈ withIdx k l → l.getD (iv.1 - k) vzero = iv.2 := by
  intro k l
  induction l generalizing k with
  | nil => intro h; exact absurd h (List.not_mem_nil iv)
  | cons p ps ih =>
    intro h
    rcases List.mem_cons.mp h with rfl | h2
    · simp
    · have hb := (mem_withIdx_bound (k + 1) ps h2).1
      have : iv.1 - k = (iv.1 - (k + 1)) + 1 := by omega
      rw [this]
      simpa using ih (k + 1) h2

theorem mem_withIdx_of_lt :
    ∀ (k i : ℕ) (l : List Vec3), i < l.length → (k + i, l.getD i vzero) ∈ withIdx k l := by
  intro k i l
  induction l generalizing k i with
  | nil => intro h; simp at h
  | cons p ps ih =>
    intro h
    cases i with
    | zero => simp [withIdx]
    | succ j =>
      have hj : j < ps.length := by
        simp only [List.length_cons] at h
        omega
      have hmem := ih (k + 1) j hj
      have heq : k + 1 + j = k + (j + 1) := by omega
      rw [heq] at hmem
      simp only [withIdx, List.getD_cons_succ]
      exact List.mem_cons_of_mem _ hmem

/-! Lemmas about the extremes fold. -/

theorem extStep_minV_le (s : Extremes) (iv : ℕ × Vec3) (j : Fin 3) :
    (extStep s iv).minV j ≤ s.minV j := by
  simp only [extStep]
  split
  · exact le_of_lt (by assumption)
  · exact le_refl _

theorem extStep_minV_le_comp (s : Extremes) (iv : ℕ × Vec3) (j : Fin 3) :
    (extStep s iv).minV j ≤ getComp iv.2 j := by
  simp only [extStep]
  split
  · exact le_refl _
  · exact le_of_not_lt (by assumption)

theorem extStep_maxV_ge (s : Extremes) (iv : ℕ × Vec3) (j : Fin 3) :
    s.maxV j ≤ (extStep s iv).maxV j := by
  simp only [extStep]
  split
  · exact le_of_lt (by assumption)
  · exact le_refl _

theorem extStep_maxV_ge_comp (s : Extremes) (iv : ℕ × Vec3) (j : Fin 3) :
    getComp iv.2 j ≤ (extStep s iv).maxV j := by
  simp only [extStep]
  split
  · exact le_refl _
  · exact le_of_not_lt (by assumption)

theorem extFold_minV_le_start (j : Fin 3) :
    ∀ (l : List (ℕ × Vec3)) (s : Extremes), (l.foldl extStep s).minV j ≤ s.minV j := by
  intro l
  induction l with
  | nil => intro s; exact le_refl _
  | cons iv rest ih =>
    intro s
    exact le_trans (ih (extStep s iv)) (extStep_minV_le s iv j)

theorem extFold_maxV_ge_start (j : Fin 3) :
    ∀ (l : List (ℕ × Vec3)) (s : Extremes), s.maxV j ≤ (l.foldl extStep s).maxV j := by
  intro l
  induction l with
  | nil => intro s; exact le_refl _
  | cons iv rest ih =>
    intro s
    exact le_trans (extStep_maxV_ge s iv j) (ih (extStep s iv))

theorem extFold_minV_le (j : Fin 3) :
    ∀ (l : List (ℕ × Vec3)) (s : Extremes) (iv : ℕ × Vec3), iv ∈ l →
      (l.foldl extStep s).minV j ≤ getComp iv.2 j := by
  intro l
  induction l with
  | nil => intro s iv h; exact absurd h (List.not_mem_nil iv)
  | cons x rest ih =>
    intro s iv h
    rcases List.mem_cons.mp h with rfl | h2
    · exact le_trans (extFold_minV_le_start j rest (extStep s iv)) (extStep_minV_le_comp s iv j)
    · exact ih (extStep s x) iv h2

theorem extFold_maxV_ge (j : Fin 3) :
    ∀ (l : List (ℕ × Vec3)) (s : Extremes) (iv : ℕ × Vec3), iv ∈ l →
      getComp iv.2 j ≤ (l.foldl extStep s).maxV j := by
  intro l
  induction l with
  | nil => intro s iv h; exact absurd h (List.not_mem_nil iv)
  | cons x rest ih =>
    intro s iv h
    rcases List.mem_cons.mp h with rfl | h2
    · exact le_trans (extStep_maxV_ge_comp s iv j) (extFold_maxV_ge_start j rest (extStep s iv))
    · exact ih (extStep s x) iv h2

theorem extFold_minV_mem (j : Fin 3) :
    ∀ (l : List (ℕ × Vec3)) (s : Extremes),
      (l.foldl extStep s).minV j = s.minV j ∨
        ∃ iv ∈ l, (l.foldl extStep s).minV j = getComp iv.2 j := by
  intro l
  induction l with
  | nil => intro s; exact Or.inl rfl
  | cons x rest ih =>
    intro s
    simp only [List.foldl_cons]
    rcases ih (extStep s x) with h | ⟨iv, hm, he⟩
    · rw [h]
      simp only [extStep]
      split
      · exact Or.inr ⟨x, List.mem_cons_self _ _, rfl⟩
      · exact Or.inl rfl
    · exact Or.inr ⟨iv, List.mem_cons_of_mem _ hm, he⟩

theorem extFold_maxV_mem (j : Fin 3) :
    ∀ (l : List (ℕ × Vec3)) (s : Extremes),
      (l.foldl extStep s).maxV j = s.maxV j ∨
        ∃ iv ∈ l, (l.foldl extStep s).maxV j = getComp iv.2 j := by
  intro l
  induction l with
  | nil => intro s; exact Or.inl rfl
  | cons x rest ih =>
    intro s
    simp only [List.foldl_cons]
    rcases ih (extStep s x) with h | ⟨iv, hm, he⟩
    · rw [h]
      simp only [extStep]
      split
      · exact Or.inr ⟨x, List.mem_cons_self _ _, rfl⟩
      · exact Or.inl rfl
    · exact Or.inr ⟨iv, List.mem_cons_of_mem _ hm, he⟩

theorem extFold_indices_lt (n : ℕ) :
    ∀ (l : List (ℕ × Vec3)) (s : Extremes),
      (∀ j, s.minI j < n ∧ s.maxI j < n) → (∀ iv ∈ l, iv.1 < n) →
      ∀ j, (l.foldl extStep s).minI j < n ∧ (l.foldl extStep s).maxI j < n := by
  intro l
  induction l with
  | nil => intro s hs _ j; exact hs j
  | cons x rest ih =>
    intro s hs hl j
    apply ih (extStep s x)
    · intro j2
      constructor
      · simp only [extStep]
        split
        · exact hl x (List.mem_cons_self _ _)
        · exact (hs j2).1
      · simp only [extStep]
        split
        · exact hl x (List.mem_cons_self _ _)
        · exact (hs j2).2
    · intro iv hiv
      exact hl iv (List.mem_cons_of_mem _ hiv)

/-! Algebraic facts about the vector primitives. -/

theorem dot_self_nonneg (v : Vec3) : 0 ≤ dot v v := by
  simp only [dot]
  nlinarith [mul_self_nonneg v.x, mul_self_nonneg v.y, mul_self_nonneg v.z]

theorem dot_self_eq_zero_iff (v : Vec3) : dot v v = 0 ↔ v = vzero := by
  cases v with
  | mk a b c =>
    constructor
    · intro h
      simp only [dot] at h
      have hx : a = 0 := by nlinarith [mul_self_nonneg a, mul_self_nonneg b, mul_self_nonneg c]
      have hy : b = 0 := by nlinarith [mul_self_nonneg a, mul_self_nonneg b, mul_self_nonneg c]
      have hz : c = 0 := by nlinarith [mul_self_nonneg a, mul_self_nonneg b, mul_self_nonneg c]
      subst hx
      subst hy
      subst hz
      rfl
    · intro h
      cases h
      simp [dot]

theorem sub_self_eq_vzero (a : Vec3) : sub a a = vzero := by
  simp [sub, vzero]

theorem distSqToSeg_none_iff (a b p : Vec3) :
    distSqToSeg a b p = none ↔ dot (sub b a) (sub b a) = 0 := by
  by_cases h : dot (sub b a) (sub b a) = 0
  · simp [distSqToSeg, segParam, h]
  · simp [distSqToSeg, segParam, h]

/-! Lemmas about the ray-interval loop. -/

theorem intersectRayLoop_none_of_exists (o dir : Vec3) :
    ∀ (l : List FaceData) (tn tf : Option ℚ),
      (∃ f ∈ l, 0 < distanceToPoint f o ∧ 0 ≤ dot f.normal dir) →
      intersectRayLoop o dir l tn tf = none := by
  intro l
  induction l with
  | nil =>
    intro tn tf h
    rcases h with ⟨f, hf, _⟩
    exact absurd hf (List.not_mem_nil f)
  | cons f rest ih =>
    intro tn tf h
    by_cases hc : 0 < distanceToPoint f o ∧ 0 ≤ dot f.normal dir
    · simp [intersectRayLoop, hc]
    · have hrest : ∃ g ∈ rest, 0 < distanceToPoint g o ∧ 0 ≤ dot g.normal dir := by
        rcases h with ⟨g, hg, hgc⟩
        rcases List.mem_cons.mp hg with rfl | hg2
        · exact absurd hgc hc
        · exact ⟨g, hg2, hgc⟩
      simp only [intersectRayLoop, hc, if_false]
      generalize (if dot f.normal dir ≠ 0 then -distanceToPoint f o / dot f.normal dir else 0) = t
      split
      · exact ih tn tf hrest
      · split
        · split
          · rfl
          · exact ih _ _ hrest
        · split
          · rfl
          · exact ih _ _ hrest

theorem intersectRayLoop_pos (o dir : Vec3) :
    ∀ (l : List FaceData) (tn tf tn2 tf2 : Option ℚ), posOpt tn → posOpt tf →
      intersectRayLoop o dir l tn tf = some (tn2, tf2) → posOpt tn2 ∧ posOpt tf2 := by
  intro l
  induction l with
  | nil =>
    intro tn tf tn2 tf2 hn hf h
    simp only [intersectRayLoop] at h
    cases h
    exact ⟨hn, hf⟩
  | cons f rest ih =>
    intro tn tf tn2 tf2 hn hf h
    by_cases hc : 0 < distanceToPoint f o ∧ 0 ≤ dot f.normal dir
    · simp [intersectRayLoop, hc] at h
    · simp only [intersectRayLoop, hc, if_false] at h
      generalize hteq :
        (if dot f.normal dir ≠ 0 then -distanceToPoint f o / dot f.normal dir else 0) = t at h
      by_cases ht : t ≤ 0
      · rw [if_pos ht] at h
        exact ih tn tf tn2 tf2 hn hf h
      · rw [if_neg ht] at h
        have htpos : 0 < t := lt_of_not_le ht
        by_cases hd : 0 < dot f.normal dir
        · rw [if_pos hd] at h
          split at h
          · cases h
          · refine ih _ _ _ _ hn ?_ h
            intro q hq
            cases htf : tf with
            | none =>
              rw [htf] at hq
              have hq2 : t = q := Option.some.inj hq
              rw [← hq2]
              exact htpos
            | some x =>
              rw [htf] at hq
              have hq2 : min t x = q := Option.some.inj hq
              rw [← hq2]
              exact lt_min htpos (hf x htf)
        · rw [if_neg hd] at h
          split at h
          · cases h
          · refine ih _ _ _ _ ?_ hf h
            intro q hq
            cases htn : tn with
            | none =>
              rw [htn] at hq
              have hq2 : t = q := Option.some.inj hq
              rw [← hq2]
              exact htpos
            | some x =>
              rw [htn] at hq
              have hq2 : max t x = q := Option.some.inj hq
              rw [← hq2]
              exact lt_max_of_lt_left htpos

/-! Lemmas about `setTwin` sequences. -/

theorem catMap_append {β E : Type} (f : β → List E) :
    ∀ (l1 l2 : List β), catMap f (l1 ++ l2) = catMap f l1 ++ catMap f l2 := by
  intro l1 l2
  induction l1 with
  | nil => rfl
  | cons x xs ih => simp [catMap, ih]

theorem mem_catMap {β E : Type} (f : β → List E) (a : E) :
    ∀ (l : List β), a ∈ catMap f l ↔ ∃ x ∈ l, a ∈ f x := by
  intro l
  induction l with
  | nil => simp [catMap]
  | cons x xs ih => simp [catMap, ih]

theorem applyOps_not_mem {E : Type} [DecidableEq E] :
    ∀ (ops : List (E × E)) (m : E → Option E) (k : E),
      k ∉ opKeys ops → applyOps m ops k = m k := by
  intro ops
  induction ops with
  | nil => intro m k _; rfl
  | cons op rest ih =>
    intro m k hk
    cases op with
    | mk x y =>
      simp only [opKeys, catMap, List.cons_append, List.nil_append, List.mem_cons] at hk
      push_neg at hk
      obtain ⟨hkx, hky, hkrest⟩ := hk
      have : applyOps (setTwinOp m x y) rest k = setTwinOp m x y k := by
        apply ih
        simpa [opKeys] using hkrest
      simp only [applyOps, this, setTwinOp, if_neg hkx, if_neg hky]

theorem applyOps_pair {E : Type} [DecidableEq E] :
    ∀ (ops : List (E × E)) (m : E → Option E) (x y : E),
      (opKeys ops).Nodup → (x, y) ∈ ops →
      applyOps m ops x = some y ∧ applyOps m ops y = some x := by
  intro ops
  induction ops with
  | nil =>
    intro m x y _ h
    exact absurd h (List.not_mem_nil _)
  | cons op rest ih =>
    intro m x y hnd h
    cases op with
    | mk a b =>
      have hkeys : opKeys ((a, b) :: rest) = a :: b :: opKeys rest := rfl
      rw [hkeys] at hnd
      rcases List.mem_cons.mp h with heq | h2
      · cases heq
        have hab : x ≠ y ∧ x ∉ opKeys rest ∧ y ∉ opKeys rest := by
          simp only [List.nodup_cons, List.mem_cons] at hnd
          push_neg at hnd
          exact ⟨hnd.1.1, hnd.1.2, hnd.2.1⟩
        obtain ⟨hxy, hxr, hyr⟩ := hab
        constructor
        · show applyOps (setTwinOp m x y) rest x = some y
          rw [applyOps_not_mem rest _ x hxr]
          simp [setTwinOp]
        · show applyOps (setTwinOp m x y) rest y = some x
          rw [applyOps_not_mem rest _ y hyr]
          simp only [setTwinOp]
          rw [if_neg (Ne.symm hxy)]
          simp
      · have hnd2 : (opKeys rest).Nodup := by
          simp only [List.nodup_cons] at hnd
          exact hnd.2.2
        exact ih (setTwinOp m a b) x y hnd2 h2

/-! Lemmas about the initial-simplex selection stages. -/

theorem initialI_lt (p0 : Vec3) (rest : List Vec3) :
    initialI0 p0 (p0 :: rest) < (p0 :: rest).length ∧
      initialI1 p0 (p0 :: rest) < (p0 :: rest).length := by
  have hfold := extFold_indices_lt ((p0 :: rest).length) (withIdx 0 (p0 :: rest)) (extInit p0)
    (fun j => ⟨by simp [extInit], by simp [extInit]⟩)
    (fun iv hiv => by
      have := (mem_withIdx_bound 0 _ hiv).2
      omega)
  exact ⟨(hfold (initialAxis (p0 :: rest) (initialExt p0 (p0 :: rest)))).1,
    (hfold (initialAxis (p0 :: rest) (initialExt p0 (p0 :: rest)))).2⟩

theorem selectV2_none_of_eq (points : List Vec3) (i0 i1 : ℕ)
    (h : points.getD i0 vzero = points.getD i1 vzero) :
    (selectV2 points i0 i1).2 = none := by
  have hu := scanMax_unchanged (fun iv : ℕ × Vec3 => decide (iv.1 ≠ i0 ∧ iv.1 ≠ i1))
    (fun iv => distSqToSeg (points.getD i0 vzero) (points.getD i1 vzero) iv.2)
    (withIdx 0 points) 0 none
    (fun iv _ _ => by
      rw [distSqToSeg_none_iff, h, sub_self_eq_vzero]
      exact (dot_self_eq_zero_iff vzero).mpr rfl)
  rw [selectV2, hu]

theorem selectV2_none_of_covered (points : List Vec3) (i0 i1 : ℕ)
    (h : ∀ k, k < points.length → k = i0 ∨ k = i1) :
    (selectV2 points i0 i1).2 = none := by
  have hu := scanMax_unchanged (fun iv : ℕ × Vec3 => decide (iv.1 ≠ i0 ∧ iv.1 ≠ i1))
    (fun iv => distSqToSeg (points.getD i0 vzero) (points.getD i1 vzero) iv.2)
    (withIdx 0 points) 0 none
    (fun iv hiv hc => by
      exfalso
      have hlt := (mem_withIdx_bound 0 points hiv).2
      have hne := of_decide_eq_true hc
      rcases h iv.1 (by omega) with h1 | h1
      · exact hne.1 h1
      · exact hne.2 h1)
  rw [selectV2, hu]

theorem selectV2_some_facts (points : List Vec3) (i0 i1 i2 : ℕ) (p2 : Vec3)
    (h : (selectV2 points i0 i1).2 = some (i2, p2)) :
    i2 ≠ i0 ∧ i2 ≠ i1 ∧ i2 < points.length ∧
      points.getD i0 vzero ≠ points.getD i1 vzero := by
  have hsp := scanMax_split (fun iv : ℕ × Vec3 => decide (iv.1 ≠ i0 ∧ iv.1 ≠ i1))
    (fun iv => distSqToSeg (points.getD i0 vzero) (points.getD i1 vzero) iv.2)
    (withIdx 0 points) 0 none (fun u hu => by cases hu) (i2, p2) h
  rcases hsp with ⟨h1, _⟩ | ⟨l1, l2, d, hspl, hcv, hdv, _⟩
  · cases h1
  · have hmem : (i2, p2) ∈ withIdx 0 points := by
      rw [hspl]
      exact List.mem_append.mpr (Or.inr (List.mem_cons_self _ _))
    have hlt := (mem_withIdx_bound 0 points hmem).2
    have hne := of_decide_eq_true hcv
    refine ⟨hne.1, hne.2, by omega, ?_⟩
    intro heq
    have hnone : distSqToSeg (points.getD i0 vzero) (points.getD i1 vzero) p2 = none := by
      rw [distSqToSeg_none_iff, heq, sub_self_eq_vzero]
      exact (dot_self_eq_zero_iff vzero).mpr rfl
    have hdv2 : distSqToSeg (points.getD i0 vzero) (points.getD i1 vzero) p2 = some d := hdv
    rw [hnone] at hdv2
    cases hdv2

theorem selectV3_none_of_covered (points : List Vec3) (i0 i1 i2 : ℕ)
    (h : ∀ k, k < points.length → k = i0 ∨ k = i1 ∨ k = i2) :
    (selectV3 points i0 i1 i2).2 = none := by
  have hu := scanMax_unchanged
    (fun iv : ℕ × Vec3 => decide (iv.1 ≠ i0 ∧ iv.1 ≠ i1 ∧ iv.1 ≠ i2))
    (fun iv =>
      (planeDistOpt (points.getD i0 vzero) (points.getD i1 vzero)
          (points.getD i2 vzero) iv.2).map abs)
    (withIdx 0 points) (-1) none
    (fun iv hiv hc => by
      exfalso
      have hlt := (mem_withIdx_bound 0 points hiv).2
      have hne := of_decide_eq_true hc
      rcases h iv.1 (by omega) with h1 | h1 | h1
      · exact hne.1 h1
      · exact hne.2.1 h1
      · exact hne.2.2 h1)
  rw [selectV3, hu]

theorem exists_fourth (i0 i1 i2 : ℕ) : ∃ k, k < 4 ∧ k ≠ i0 ∧ k ≠ i1 ∧ k ≠ i2 := by
  by_contra hcon
  push_neg at hcon
  have h0 := hcon 0 (by norm_num)
  have h1 := hcon 1 (by norm_num)
  have h2 := hcon 2 (by norm_num)
  have h3 := hcon 3 (by norm_num)
  omega

theorem selectV3_isSome (points : List Vec3) (i0 i1 i2 : ℕ)
    (hpn : planeNormal3 (points.getD i0 vzero) (points.getD i1 vzero)
      (points.getD i2 vzero) ≠ vzero)
    (hk : ∃ k, k < points.length ∧ k ≠ i0 ∧ k ≠ i1 ∧ k ≠ i2) :
    ∃ w, (selectV3 points i0 i1 i2).2 = some w := by
  obtain ⟨k, hklt, hk0, hk1, hk2⟩ := hk
  apply scanMax_isSome
  refine Or.inr ⟨(k, points.getD k vzero), ?_, ?_, ?_⟩
  · have := mem_withIdx_of_lt 0 k points hklt
    simpa using this
  · simp only [decide_eq_true_eq]
    exact ⟨hk0, hk1, hk2⟩
  · refine ⟨abs (dot (planeNormal3 (points.getD i0 vzero) (points.getD i1 vzero)
      (points.getD i2 vzero)) (points.getD k vzero) -
      dot (planeNormal3 (points.getD i0 vzero) (points.getD i1 vzero)
        (points.getD i2 vzero)) (points.getD i0 vzero)), ?_, ?_⟩
    · simp only [planeDistOpt]
      rw [if_neg hpn]
      rfl
    · have := abs_nonneg (dot (planeNormal3 (points.getD i0 vzero) (points.getD i1 vzero)
        (points.getD i2 vzero)) (points.getD k vzero) -
        dot (planeNormal3 (points.getD i0 vzero) (points.getD i1 vzero)
          (points.getD i2 vzero)) (points.getD i0 vzero))
      linarith

theorem computeInitialHull_err_small (points : List Vec3) (h : points.length < 4) :
    computeInitialHull points = .error .typeError := by
  match points with
  | [] => rfl
  | p0 :: rest =>
    cases hv2 : (selectV2 (p0 :: rest) (initialI0 p0 (p0 :: rest))
        (initialI1 p0 (p0 :: rest))).2 with
    | none => simp [computeInitialHull, hv2]
    | some iv =>
      obtain ⟨i2, p2⟩ := iv
      obtain ⟨hne0, hne1, hi2lt, hgd⟩ := selectV2_some_facts _ _ _ _ _ hv2
      have hi01 : initialI0 p0 (p0 :: rest) ≠ initialI1 p0 (p0 :: rest) := by
        intro heq
        exact hgd (by rw [heq])
      obtain ⟨hb0, hb1⟩ := initialI_lt p0 rest
      have hv3 : (selectV3 (p0 :: rest) (initialI0 p0 (p0 :: rest))
          (initialI1 p0 (p0 :: rest)) i2).2 = none := by
        apply selectV3_none_of_covered
        intro k hk
        omega
      simp [computeInitialHull, hv2, hv3]

/-! Lemmas about the `addNewFaces` stitching sequence. -/

theorem opKeys_append {E : Type} (l1 l2 : List (E × E)) :
    opKeys (l1 ++ l2) = opKeys l1 ++ opKeys l2 :=
  catMap_append _ l1 l2

theorem mem_opKeys {E : Type} (ops : List (E × E)) (k : E) :
    k ∈ opKeys ops ↔ ∃ p ∈ ops, k = p.1 ∨ k = p.2 := by
  rw [opKeys, mem_catMap]
  constructor
  · rintro ⟨p, hp, hk⟩
    rcases List.mem_cons.mp hk with h | h
    · exact ⟨p, hp, Or.inl h⟩
    · refine ⟨p, hp, Or.inr ?_⟩
      simpa using h
  · rintro ⟨p, hp, h | h⟩
    · exact ⟨p, hp, by simp [h]⟩
    · exact ⟨p, hp, by simp [h]⟩

theorem mem_ops_A {α : Type} (n : ℕ) (outer : ℕ → α) (k : ℕ) (hk : k ≤ n) :
    (StEdge.new k 2, StEdge.old (outer k)) ∈ addNewFacesOps n outer := by
  apply List.mem_append.mpr
  apply Or.inl
  rw [mem_catMap]
  exact ⟨k, List.mem_range.mpr (by omega), List.mem_cons_self _ _⟩

theorem mem_ops_S {α : Type} (n : ℕ) (outer : ℕ → α) (k : ℕ) (hk : k ≤ n) (hk0 : k ≠ 0) :
    (StEdge.new k 1, StEdge.new (k - 1) 0) ∈ addNewFacesOps n outer := by
  apply List.mem_append.mpr
  apply Or.inl
  rw [mem_catMap]
  refine ⟨k, List.mem_range.mpr (by omega), ?_⟩
  simp [if_neg hk0]

theorem mem_ops_F {α : Type} (n : ℕ) (outer : ℕ → α) :
    (StEdge.new 0 1, StEdge.new n 0) ∈ addNewFacesOps n outer :=
  List.mem_append.mpr (Or.inr (List.mem_cons_self _ _))

theorem loop_opKeys {α : Type} (outer : ℕ → α) (k : ℕ) :
    opKeys ((StEdge.new k 2, StEdge.old (outer k)) ::
        (if k = 0 then [] else [(StEdge.new k 1, StEdge.new (k - 1) 0)])) =
      if k = 0 then [StEdge.new k 2, StEdge.old (outer k)]
      else [StEdge.new k 2, StEdge.old (outer k), StEdge.new k 1, StEdge.new (k - 1) 0] := by
  by_cases hk : k = 0 <;> simp [opKeys, catMap, hk]

theorem opKeys_cases {α : Type} (n : ℕ) (outer : ℕ → α) (x : StEdge α)
    (hx : x ∈ opKeys (addNewFacesOps n outer)) :
    (∃ k s, x = StEdge.new k s) ∨ ∃ k, k ≤ n ∧ x = StEdge.old (outer k) := by
  rw [addNewFacesOps, opKeys_append] at hx
  rcases List.mem_append.mp hx with h | h
  · rw [mem_opKeys] at h
    obtain ⟨p, hp, hx12⟩ := h
    rw [mem_catMap] at hp
    obtain ⟨k, hkr, hpk⟩ := hp
    have hkn : k ≤ n := by
      have := List.mem_range.mp hkr
      omega
    rcases List.mem_cons.mp hpk with rfl | hpk2
    · rcases hx12 with rfl | rfl
      · exact Or.inl ⟨k, 2, rfl⟩
      · exact Or.inr ⟨k, hkn, rfl⟩
    · by_cases hk0 : k = 0
      · rw [if_pos hk0] at hpk2
        exact absurd hpk2 (List.not_mem_nil p)
      · rw [if_neg hk0] at hpk2
        rcases List.mem_cons.mp hpk2 with rfl | hpk3
        · rcases hx12 with rfl | rfl
          · exact Or.inl ⟨k, 1, rfl⟩
          · exact Or.inl ⟨k - 1, 0, rfl⟩
        · exact absurd hpk3 (List.not_mem_nil p)
  · rw [mem_opKeys] at h
    obtain ⟨p, hp, hx12⟩ := h
    rcases List.mem_cons.mp hp with rfl | hp2
    · rcases hx12 with rfl | rfl
      · exact Or.inl ⟨0, 1, rfl⟩
      · exact Or.inl ⟨n, 0, rfl⟩
    · exact absurd hp2 (List.not_mem_nil p)

theorem loopKeys_nodup {α : Type} (n : ℕ) (outer : ℕ → α)
    (hinj : ∀ i j, i ≤ n → j ≤ n → outer i = outer j → i = j) :
    ∀ (L : List ℕ), L.Nodup → (∀ k ∈ L, k ≤ n) →
      (opKeys (catMap (fun k =>
          (StEdge.new k 2, StEdge.old (outer k)) ::
            (if k = 0 then [] else [(StEdge.new k 1, StEdge.new (k - 1) 0)])) L)).Nodup := by
  intro L
  induction L with
  | nil =>
    intro _ _
    simp [catMap, opKeys]
  | cons k L2 ih =>
    intro hnd hle
    have hkn : k ≤ n := hle k (List.mem_cons_self _ _)
    have hk2 : k ∉ L2 := (List.nodup_cons.mp hnd).1
    have hnd2 := (List.nodup_cons.mp hnd).2
    have hle2 : ∀ j ∈ L2, j ≤ n := fun j hj => hle j (List.mem_cons_of_mem _ hj)
    have hf01 : ¬(0 : Fin 3) = 1 := by decide
    have hf02 : ¬(0 : Fin 3) = 2 := by decide
    have hf10 : ¬(1 : Fin 3) = 0 := by decide
    have hf12 : ¬(1 : Fin 3) = 2 := by decide
    have hf20 : ¬(2 : Fin 3) = 0 := by decide
    have hf21 : ¬(2 : Fin 3) = 1 := by decide
    rw [catMap, opKeys_append, List.nodup_append]
    refine ⟨?_, ih hnd2 hle2, ?_⟩
    · rw [loop_opKeys]
      by_cases hk0 : k = 0
      · rw [if_pos hk0]
        simp
      · rw [if_neg hk0]
        simp [StEdge.new.injEq, hf21, hf20, hf10]
    · intro x hx1 hx2
      rw [loop_opKeys] at hx1
      rw [mem_opKeys] at hx2
      obtain ⟨p, hp, hx12⟩ := hx2
      rw [mem_catMap] at hp
      obtain ⟨j, hjL, hpj⟩ := hp
      have hjn : j ≤ n := hle2 j hjL
      have hjk : j ≠ k := fun h => hk2 (h ▸ hjL)
      have hx2b : x ∈ opKeys ((StEdge.new j 2, StEdge.old (outer j)) ::
          (if j = 0 then [] else [(StEdge.new j 1, StEdge.new (j - 1) 0)])) :=
        (mem_opKeys _ x).mpr ⟨p, hpj, hx12⟩
      rw [loop_opKeys] at hx2b
      cases x with
      | old c =>
        have hc1 : c = outer k := by
          by_cases hk0 : k = 0
          · rw [if_pos hk0] at hx1
            simpa [StEdge.old.injEq] using hx1
          · rw [if_neg hk0] at hx1
            simpa [StEdge.old.injEq] using hx1
        have hc2 : c = outer j := by
          by_cases hj0 : j = 0
          · rw [if_pos hj0] at hx2b
            simpa [StEdge.old.injEq] using hx2b
          · rw [if_neg hj0] at hx2b
            simpa [StEdge.old.injEq] using hx2b
        exact hjk (hinj j k hjn hkn (by rw [← hc1, ← hc2]))
      | new i s =>
        fin_cases s
        · -- slot 0 keys are `new (k-1) 0`, needing `k ≠ 0`
          by_cases hk0 : k = 0
          · rw [if_pos hk0] at hx1
            simp [StEdge.new.injEq, hf02, hf01] at hx1
          · rw [if_neg hk0] at hx1
            simp [StEdge.new.injEq, hf02, hf01] at hx1
            by_cases hj0 : j = 0
            · rw [if_pos hj0] at hx2b
              simp [StEdge.new.injEq, hf02, hf01] at hx2b
            · rw [if_neg hj0] at hx2b
              simp [StEdge.new.injEq, hf02, hf01] at hx2b
              omega
        · -- slot 1 keys are `new k 1`, needing `k ≠ 0`
          by_cases hk0 : k = 0
          · rw [if_pos hk0] at hx1
            simp [StEdge.new.injEq, hf12, hf10] at hx1
          · rw [if_neg hk0] at hx1
            simp [StEdge.new.injEq, hf12, hf10] at hx1
            by_cases hj0 : j = 0
            · rw [if_pos hj0] at hx2b
              simp [StEdge.new.injEq, hf12, hf10] at hx2b
            · rw [if_neg hj0] at hx2b
              simp [StEdge.new.injEq, hf12, hf10] at hx2b
              omega
        · -- slot 2 keys are `new k 2`
          have hik : i = k := by
            by_cases hk0 : k = 0
            · rw [if_pos hk0] at hx1
              simpa [StEdge.new.injEq, hf21, hf20] using hx1
            · rw [if_neg hk0] at hx1
              simpa [StEdge.new.injEq, hf21, hf20] using hx1
          have hij : i = j := by
            by_cases hj0 : j = 0
            · rw [if_pos hj0] at hx2b
              simpa [StEdge.new.injEq, hf21, hf20] using hx2b
            · rw [if_neg hj0] at hx2b
              simpa [StEdge.new.injEq, hf21, hf20] using hx2b
          omega

theorem addNewFacesOps_keys_nodup {α : Type} (n : ℕ) (outer : ℕ → α)
    (hinj : ∀ i j, i ≤ n → j ≤ n → outer i = outer j → i = j) :
    (opKeys (addNewFacesOps n outer)).Nodup := by
  rw [addNewFacesOps, opKeys_append, List.nodup_append]
  refine ⟨loopKeys_nodup n outer hinj (List.range (n + 1)) (List.nodup_range _)
      (fun k hk => by
        have := List.mem_range.mp hk
        omega), ?_, ?_⟩
  · simp [opKeys, catMap]
  · intro x hx1 hx2
    have hf01 : ¬(0 : Fin 3) = 1 := by decide
    have hf02 : ¬(0 : Fin 3) = 2 := by decide
    have hf10 : ¬(1 : Fin 3) = 0 := by decide
    have hf12 : ¬(1 : Fin 3) = 2 := by decide
    have hx2b : x = StEdge.new 0 1 ∨ x = StEdge.new n 0 := by
      simpa [opKeys, catMap] using hx2
    rw [mem_opKeys] at hx1
    obtain ⟨p, hp, hx12⟩ := hx1
    rw [mem_catMap] at hp
    obtain ⟨j, hjL, hpj⟩ := hp
    have hjn : j < n + 1 := List.mem_range.mp hjL
    have hx1b : x ∈ opKeys ((StEdge.new j 2, StEdge.old (outer j)) ::
        (if j = 0 then [] else [(StEdge.new j 1, StEdge.new (j - 1) 0)])) :=
      (mem_opKeys _ x).mpr ⟨p, hpj, hx12⟩
    rw [loop_opKeys] at hx1b
    rcases hx2b with rfl | rfl
    · by_cases hj0 : j = 0
      · rw [if_pos hj0] at hx1b
        simp [StEdge.new.injEq, hf12, hf10] at hx1b
      · rw [if_neg hj0] at hx1b
        simp [StEdge.new.injEq, hf12, hf10] at hx1b
        exact hj0 hx1b.symm
    · by_cases hj0 : j = 0
      · rw [if_pos hj0] at hx1b
        simp [StEdge.new.injEq, hf02, hf01] at hx1b
      · rw [if_neg hj0] at hx1b
        simp [StEdge.new.injEq, hf02, hf01] at hx1b
        omega

theorem addNewFacesTwin_invol {α : Type} [DecidableEq α] (n : ℕ) (outer : ℕ → α)
    (oldTwin : α → Option α) (liveOld : α → Prop)
    (hinj : ∀ i j, i ≤ n → j ≤ n → outer i = outer j → i = j)
    (hlive : ∀ a, liveOld a → (∀ i, i ≤ n → outer i ≠ a) →
      ∃ b, oldTwin a = some b ∧ liveOld b ∧ (∀ j, j ≤ n → outer j ≠ b) ∧ oldTwin b = some a) :
    ∀ e, liveSt n liveOld e →
      (addNewFacesTwin n outer oldTwin e).bind (addNewFacesTwin n outer oldTwin) = some e := by
  have hnd := addNewFacesOps_keys_nodup n outer hinj
  intro e he
  cases e with
  | new k s =>
    have hk : k ≤ n := by
      have : k < n + 1 := he
      omega
    fin_cases s
    · -- slot 0
      by_cases hkn : k = n
      · subst hkn
        obtain ⟨h1, h2⟩ := applyOps_pair (addNewFacesOps k outer) (liftOld oldTwin)
          (StEdge.new 0 1) (StEdge.new k 0) hnd (mem_ops_F k outer)
        show (applyOps (liftOld oldTwin) (addNewFacesOps k outer) (StEdge.new k 0)).bind _ = _
        rw [h2]
        exact h1
      · have hk1 : k + 1 ≤ n := by omega
        have hmem := mem_ops_S n outer (k + 1) hk1 (by omega)
        have hred : k + 1 - 1 = k := by omega
        rw [hred] at hmem
        obtain ⟨h1, h2⟩ := applyOps_pair (addNewFacesOps n outer) (liftOld oldTwin)
          (StEdge.new (k + 1) 1) (StEdge.new k 0) hnd hmem
        show (applyOps (liftOld oldTwin) (addNewFacesOps n outer) (StEdge.new k 0)).bind _ = _
        rw [h2]
        exact h1
    · -- slot 1
      by_cases hk0 : k = 0
      · subst hk0
        obtain ⟨h1, h2⟩ := applyOps_pair (addNewFacesOps n outer) (liftOld oldTwin)
          (StEdge.new 0 1) (StEdge.new n 0) hnd (mem_ops_F n outer)
        show (applyOps (liftOld oldTwin) (addNewFacesOps n outer) (StEdge.new 0 1)).bind _ = _
        rw [h1]
        exact h2
      · obtain ⟨h1, h2⟩ := applyOps_pair (addNewFacesOps n outer) (liftOld oldTwin)
          (StEdge.new k 1) (StEdge.new (k - 1) 0) hnd (mem_ops_S n outer k hk hk0)
        show (applyOps (liftOld oldTwin) (addNewFacesOps n outer) (StEdge.new k 1)).bind _ = _
        rw [h1]
        exact h2
    · -- slot 2
      obtain ⟨h1, h2⟩ := applyOps_pair (addNewFacesOps n outer) (liftOld oldTwin)
        (StEdge.new k 2) (StEdge.old (outer k)) hnd (mem_ops_A n outer k hk)
      show (applyOps (liftOld oldTwin) (addNewFacesOps n outer) (StEdge.new k 2)).bind _ = _
      rw [h1]
      exact h2
  | old a =>
    have hla : liveOld a := he
    by_cases ha : ∃ i, i ≤ n ∧ outer i = a
    · obtain ⟨i, hi, rfl⟩ := ha
      obtain ⟨h1, h2⟩ := applyOps_pair (addNewFacesOps n outer) (liftOld oldTwin)
        (StEdge.new i 2) (StEdge.old (outer i)) hnd (mem_ops_A n outer i hi)
      show (applyOps (liftOld oldTwin) (addNewFacesOps n outer) (StEdge.old (outer i))).bind _ = _
      rw [h2]
      exact h1
    · push_neg at ha
      obtain ⟨b, hab, hbl, hbr, hba⟩ := hlive a hla ha
      have hnma : (StEdge.old a : StEdge α) ∉ opKeys (addNewFacesOps n outer) := by
        intro hmem
        rcases opKeys_cases n outer _ hmem with ⟨k, s, hks⟩ | ⟨k, hkn, hko⟩
        · cases hks
        · have : outer k = a := (StEdge.old.injEq _ _).mp hko.symm
          exact ha k hkn this
      have hnmb : (StEdge.old b : StEdge α) ∉ opKeys (addNewFacesOps n outer) := by
        intro hmem
        rcases opKeys_cases n outer _ hmem with ⟨k, s, hks⟩ | ⟨k, hkn, hko⟩
        · cases hks
        · have : outer k = b := (StEdge.old.injEq _ _).mp hko.symm
          exact hbr k hkn this
      have htwa : addNewFacesTwin n outer oldTwin (StEdge.old a) = some (StEdge.old b) := by
        rw [addNewFacesTwin, applyOps_not_mem _ _ _ hnma]
        simp [liftOld, hab]
      have htwb : addNewFacesTwin n outer oldTwin (StEdge.old b) = some (StEdge.old a) := by
        rw [addNewFacesTwin, applyOps_not_mem _ _ _ hnmb]
        simp [liftOld, hba]
      rw [htwa]
      exact htwb

theorem simplexFaces_length (i0 i1 i2 i3 : ℕ) (neg : Bool) :
    (simplexFaces i0 i1 i2 i3 neg).length = 4 := by
  cases neg <;> simp [simplexFaces]

theorem computeInitialHull_ok (p0 : Vec3) (rest : List Vec3) (i2 : ℕ) (p2 : Vec3)
    (hlen : 4 ≤ (p0 :: rest).length)
    (hv2 : (selectV2 (p0 :: rest) (initialI0 p0 (p0 :: rest))
      (initialI1 p0 (p0 :: rest))).2 = some (i2, p2))
    (hpn : planeNormal3 ((p0 :: rest).getD (initialI0 p0 (p0 :: rest)) vzero)
      ((p0 :: rest).getD (initialI1 p0 (p0 :: rest)) vzero)
      ((p0 :: rest).getD i2 vzero) ≠ vzero) :
    (∃ h, computeInitialHull (p0 :: rest) = .ok h) ∧
      (hullFacesAfter (p0 :: rest)).length = 4 := by
  obtain ⟨k, hk4, hka, hkb, hkc⟩ :=
    exists_fourth (initialI0 p0 (p0 :: rest)) (initialI1 p0 (p0 :: rest)) i2
  have hklen : k < (p0 :: rest).length := by omega
  obtain ⟨w, hw⟩ := selectV3_isSome (p0 :: rest) (initialI0 p0 (p0 :: rest))
    (initialI1 p0 (p0 :: rest)) i2 hpn ⟨k, hklen, hka, hkb, hkc⟩
  obtain ⟨i3, p3⟩ := w
  constructor
  · refine ⟨InitialHull.mk (initialI0 p0 (p0 :: rest)) (initialI1 p0 (p0 :: rest)) i2 i3
      (simplexFaces (initialI0 p0 (p0 :: rest)) (initialI1 p0 (p0 :: rest)) i2 i3
        (match planeDistOpt ((p0 :: rest).getD (initialI0 p0 (p0 :: rest)) vzero)
            ((p0 :: rest).getD (initialI1 p0 (p0 :: rest)) vzero)
            ((p0 :: rest).getD i2 vzero) p3 with
          | some d => decide (d < 0)
          | none => false))
      (match planeDistOpt ((p0 :: rest).getD (initialI0 p0 (p0 :: rest)) vzero)
          ((p0 :: rest).getD (initialI1 p0 (p0 :: rest)) vzero)
          ((p0 :: rest).getD i2 vzero) p3 with
        | some d => decide (d < 0)
        | none => false), ?_⟩
    simp only [computeInitialHull, hv2, hw]
  · simp only [hullFacesAfter, computeInitialHull, hv2, hw]
    exact simplexFaces_length _ _ _ _ _

/-! The eye-vertex selection. -/

theorem nextVertexToAdd_spec (fd : ℕ → FaceData) (first : VNode) (rest : List VNode)
    (tol : ℚ) (htol : 0 ≤ tol)
    (hpos : ∀ v ∈ first :: rest, tol < distanceToPoint (fd v.face) v.point) :
    ∃ v, nextVertexToAdd fd (first :: rest) = some v ∧
      v ∈ (first :: rest).takeWhile (fun w => decide (w.face = first.face)) ∧
      v.face = first.face ∧
      ∀ w ∈ (first :: rest).takeWhile (fun w => decide (w.face = first.face)),
        distanceToPoint (fd first.face) w.point ≤ distanceToPoint (fd first.face) v.point := by
  have hrun : (first :: rest).takeWhile (fun w => decide (w.face = first.face)) =
      first :: rest.takeWhile (fun w => decide (w.face = first.face)) :=
    List.takeWhile_cons_of_pos (by simp)
  have hfmem : first ∈ (first :: rest).takeWhile (fun w => decide (w.face = first.face)) := by
    rw [hrun]
    exact List.mem_cons_self _ _
  have hfpos : (0 : ℚ) < distanceToPoint (fd first.face) first.point :=
    lt_of_le_of_lt htol (hpos first (List.mem_cons_self _ _))
  obtain ⟨v, hv⟩ := scanMax_isSome (fun _ : VNode => true)
    (fun w => some (distanceToPoint (fd first.face) w.point))
    ((first :: rest).takeWhile (fun w => decide (w.face = first.face))) 0 none
    (Or.inr ⟨first, hfmem, rfl, distanceToPoint (fd first.face) first.point, rfl, hfpos⟩)
  have hnv : nextVertexToAdd fd (first :: rest) = some v := by
    simp only [nextVertexToAdd]
    exact hv
  rcases scanMax_split (fun _ : VNode => true)
      (fun w => some (distanceToPoint (fd first.face) w.point))
      ((first :: rest).takeWhile (fun w => decide (w.face = first.face))) 0 none
      (fun u hu => by cases hu) v hv with
    ⟨hcon, _⟩ | ⟨l1, l2, d, hspl, _, hdv, _, _, hpre, hsuf⟩
  · cases hcon
  · have hvd : distanceToPoint (fd first.face) v.point = d := Option.some.inj hdv
    have hvmem : v ∈ (first :: rest).takeWhile (fun w => decide (w.face = first.face)) := by
      rw [hspl]
      exact List.mem_append.mpr (Or.inr (List.mem_cons_self _ _))
    refine ⟨v, hnv, hvmem, ?_, ?_⟩
    · have := List.mem_takeWhile_imp hvmem
      simpa using this
    · intro w hw
      rw [hspl] at hw
      rcases List.mem_append.mp hw with hw1 | hw2
      · have := hpre w hw1 rfl (distanceToPoint (fd first.face) w.point) rfl
        rw [hvd]
        exact le_of_lt this
      · rcases List.mem_cons.mp hw2 with rfl | hw3
        · exact le_refl _
        · have := hsuf w hw3 rfl (distanceToPoint (fd first.face) w.point) rfl
          rw [hvd]
          exact this

/-! Further helper lemmas for the claim theorems. -/

theorem snd_mem_of_mem_withIdx {iv : ℕ × Vec3} :
    ∀ (k : ℕ) (l : List Vec3), iv ∈ withIdx k l → iv.2 ∈ l := by
  intro k l
  induction l generalizing k with
  | nil => intro h; exact absurd h (List.not_mem_nil iv)
  | cons p ps ih =>
    intro h
    rcases List.mem_cons.mp h with rfl | h2
    · exact List.mem_cons_self _ _
    · exact List.mem_cons_of_mem _ (ih (k + 1) h2)

theorem exists_withIdx_of_mem {q : Vec3} :
    ∀ (l : List Vec3), q ∈ l → ∀ (k : ℕ), ∃ i, (i, q) ∈ withIdx k l := by
  intro l
  induction l with
  | nil => intro h; exact absurd h (List.not_mem_nil q)
  | cons p ps ih =>
    intro h k
    rcases List.mem_cons.mp h with rfl | h2
    · exact ⟨k, List.mem_cons_self _ _⟩
    · obtain ⟨i, hi⟩ := ih h2 (k + 1)
      exact ⟨i, List.mem_cons_of_mem _ hi⟩

/-! The claim theorems. -/

/-- C1: For every input of fewer than 4 points, `setFromPoints` reports the
`InvalidInput` error (`'The algorithm needs at least four points.'`)
immediately — it is the first thing the call does — the build aborts (the
run never completes: it throws inside `computeInitialHull` before any face
is created), and no partial hull is returned: the face list left behind is
the empty list installed by `makeEmpty`. -/
theorem claim_C1 (points : List Vec3) (h : points.length < 4) :
    (setFromPoints points).1 = [Report.invalidInput] ∧
      (setFromPoints points).2 = .error .typeError ∧
      hullFacesAfter points = [] := by
  refine ⟨?_, ?_, ?_⟩
  · simp [setFromPoints, setFromPointsReports, h]
  · simpa [setFromPoints] using computeInitialHull_err_small points h
  · simp [hullFacesAfter, computeInitialHull_err_small points h]

/-- Witness for C1 at a concrete three-point input. -/
theorem claim_C1_witness :
    (setFromPoints [vzero, vzero, vzero]).1 = [Report.invalidInput] ∧
      (setFromPoints [vzero, vzero, vzero]).2 = .error .typeError ∧
      hullFacesAfter [vzero, vzero, vzero] = [] :=
  claim_C1 [vzero, vzero, vzero] (by norm_num)

/-- C3: `containsPoint` returns `true` exactly when every face's signed
plane distance to the query point is at most the tolerance; it returns
`false` exactly when some face's distance exceeds the tolerance. -/
theorem claim_C3 (faces : List FaceData) (tol : ℚ) (p : Vec3) :
    containsPoint faces tol p = true ↔ ∀ f ∈ faces, distanceToPoint f p ≤ tol := by
  induction faces with
  | nil => simp [containsPoint]
  | cons f rest ih =>
    by_cases hf : distanceToPoint f p > tol
    · simp only [containsPoint, if_pos hf]
      constructor
      · intro hcon
        cases hcon
      · intro hall
        exact absurd (hall f (List.mem_cons_self _ _)) (not_le.mpr hf)
    · simp only [containsPoint, if_neg hf]
      rw [ih]
      constructor
      · intro hrest g hg
        rcases List.mem_cons.mp hg with rfl | hg2
        · exact le_of_not_lt hf
        · exact hrest g hg2
      · intro hall g hg
        exact hall g (List.mem_cons_of_mem _ hg)

/-- Witness for C3 at a concrete face list and point. -/
theorem claim_C3_witness :
    containsPoint cubeFaces 0 vzero = true ↔
      ∀ f ∈ cubeFaces, distanceToPoint f vzero ≤ 0 :=
  claim_C3 cubeFaces 0 vzero

/-- C10: on a hull whose face list is empty — a freshly constructed
`ConvexHull` or one reset by `makeEmpty` — `containsPoint` returns `true`
for every point, vacuously: the face loop finds no face whose distance
exceeds the tolerance. -/
theorem claim_C10 (h : HullState) (tol : ℚ) (p : Vec3) :
    containsPoint (makeEmpty h).faces tol p = true ∧
      containsPoint ([] : List FaceData) tol p = true :=
  ⟨rfl, rfl⟩

/-- C6: the tolerance is `3 * machineEps * Σ_axis max(|min|, |max|)` where
`min`/`max` are genuinely the per-axis extreme coordinates of the point
cloud: each is attained by some input point and bounds every input point's
coordinate on that axis. -/
theorem claim_C6 (p0 : Vec3) (rest : List Vec3) :
    ∃ mn mx : Fin 3 → ℚ,
      (∀ j, (∃ q ∈ p0 :: rest, getComp q j = mn j) ∧
        (∀ q ∈ p0 :: rest, mn j ≤ getComp q j) ∧
        (∃ q ∈ p0 :: rest, getComp q j = mx j) ∧
        (∀ q ∈ p0 :: rest, getComp q j ≤ mx j)) ∧
      toleranceOf (initialExt p0 (p0 :: rest)) =
        3 * machineEps *
          (max (abs (mn 0)) (abs (mx 0)) + max (abs (mn 1)) (abs (mx 1)) +
            max (abs (mn 2)) (abs (mx 2))) := by
  refine ⟨(initialExt p0 (p0 :: rest)).minV, (initialExt p0 (p0 :: rest)).maxV, ?_, rfl⟩
  intro j
  refine ⟨?_, ?_, ?_, ?_⟩
  · rcases extFold_minV_mem j (withIdx 0 (p0 :: rest)) (extInit p0) with he | ⟨iv, hm, he⟩
    · exact ⟨p0, List.mem_cons_self _ _, he.symm⟩
    · exact ⟨iv.2, snd_mem_of_mem_withIdx 0 _ hm, he.symm⟩
  · intro q hq
    obtain ⟨i, hi⟩ := exists_withIdx_of_mem (p0 :: rest) hq 0
    exact extFold_minV_le j (withIdx 0 (p0 :: rest)) (extInit p0) (i, q) hi
  · rcases extFold_maxV_mem j (withIdx 0 (p0 :: rest)) (extInit p0) with he | ⟨iv, hm, he⟩
    · exact ⟨p0, List.mem_cons_self _ _, he.symm⟩
    · exact ⟨iv.2, snd_mem_of_mem_withIdx 0 _ hm, he.symm⟩
  · intro q hq
    obtain ⟨i, hi⟩ := exists_withIdx_of_mem (p0 :: rest) hq 0
    exact extFold_maxV_ge j (withIdx 0 (p0 :: rest)) (extInit p0) (i, q) hi

/-- Witness for C6 at a concrete four-point input. -/
theorem claim_C6_witness :
    ∃ mn mx : Fin 3 → ℚ,
      (∀ j, (∃ q ∈ (⟨0, 0, 0⟩ : Vec3) :: [⟨1, 0, 0⟩, ⟨0, 1, 0⟩, ⟨1, 1, 0⟩],
          getComp q j = mn j) ∧
        (∀ q ∈ (⟨0, 0, 0⟩ : Vec3) :: [⟨1, 0, 0⟩, ⟨0, 1, 0⟩, ⟨1, 1, 0⟩],
          mn j ≤ getComp q j) ∧
        (∃ q ∈ (⟨0, 0, 0⟩ : Vec3) :: [⟨1, 0, 0⟩, ⟨0, 1, 0⟩, ⟨1, 1, 0⟩],
          getComp q j = mx j) ∧
        (∀ q ∈ (⟨0, 0, 0⟩ : Vec3) :: [⟨1, 0, 0⟩, ⟨0, 1, 0⟩, ⟨1, 1, 0⟩],
          getComp q j ≤ mx j)) ∧
      toleranceOf (initialExt ⟨0, 0, 0⟩
          ((⟨0, 0, 0⟩ : Vec3) :: [⟨1, 0, 0⟩, ⟨0, 1, 0⟩, ⟨1, 1, 0⟩])) =
        3 * machineEps *
          (max (abs (mn 0)) (abs (mx 0)) + max (abs (mn 1)) (abs (mx 1)) +
            max (abs (mn 2)) (abs (mx 2))) :=
  claim_C6 ⟨0, 0, 0⟩ [⟨1, 0, 0⟩, ⟨0, 1, 0⟩, ⟨1, 1, 0⟩]

/-- C2 counterexample: the four corners of the unit square are coplanar
(degenerate) input, yet construction does not fail at all — no
`DegenerateGeometry` error exists in the code.  `computeInitialHull`
succeeds: `v2` is found at positive line distance, and the `v3` scan, whose
running maximum starts at `-1`, accepts vertex 3 at plane distance `0`, so
the four (flat) simplex faces are built with no error of any kind. -/
theorem claim_C2_counterexample :
    (∀ q ∈ squarePoints, q.z = 0) ∧
      computeInitialHull squarePoints =
        .ok (InitialHull.mk 0 1 2 3 [(0, 2, 1), (3, 0, 1), (3, 1, 2), (3, 2, 0)] false) ∧
      hullFacesAfter squarePoints ≠ [] := by
  have hok : computeInitialHull squarePoints =
      .ok (InitialHull.mk 0 1 2 3 [(0, 2, 1), (3, 0, 1), (3, 1, 2), (3, 2, 0)] false) := by
    norm_num [computeInitialHull, initialI0, initialI1, initialExt, computeExtremes, withIdx,
      extInit, extStep, initialAxis, selectV2, selectV3, scanMax, distSqToSeg, segParam,
      planeDistOpt, planeNormal3, cross, sub, add, smul, dot, distSq, getComp, vzero,
      simplexFaces, squarePoints]
  refine ⟨?_, hok, ?_⟩
  · intro q hq
    rcases List.mem_cons.mp hq with rfl | hq
    · rfl
    · rcases List.mem_cons.mp hq with rfl | hq
      · rfl
      · rcases List.mem_cons.mp hq with rfl | hq
        · rfl
        · rcases List.mem_cons.mp hq with rfl | hq
          · rfl
          · exact absurd hq (List.not_mem_nil q)
  · simp [hullFacesAfter, hok]

/-- C2 amended: there is no `DegenerateGeometry` error.  When no `v2` with
positive distance to the `v0`-`v1` segment exists (coincident or collinear
input), construction aborts with a JavaScript `TypeError` (dereferencing
the undefined `v2`), reported from inside the simplex search rather than as
a structured error; when a `v2` exists (so the three chosen base vertices
are affinely independent, the reachable case), a `v3` is always accepted —
the running maximum starts at `-1`, so even a coplanar vertex at distance 0
qualifies — and construction proceeds without any error, building the four
initial faces. -/
theorem claim_C2_amended (p0 : Vec3) (rest : List Vec3) :
    ((selectV2 (p0 :: rest) (initialI0 p0 (p0 :: rest)) (initialI1 p0 (p0 :: rest))).2 =
        none →
      computeInitialHull (p0 :: rest) = .error .typeError) ∧
    (∀ i2 p2,
      (selectV2 (p0 :: rest) (initialI0 p0 (p0 :: rest)) (initialI1 p0 (p0 :: rest))).2 =
        some (i2, p2) →
      planeNormal3 ((p0 :: rest).getD (initialI0 p0 (p0 :: rest)) vzero)
        ((p0 :: rest).getD (initialI1 p0 (p0 :: rest)) vzero)
        ((p0 :: rest).getD i2 vzero) ≠ vzero →
      4 ≤ (p0 :: rest).length →
      (∃ h, computeInitialHull (p0 :: rest) = .ok h) ∧
        (hullFacesAfter (p0 :: rest)).length = 4) := by
  constructor
  · intro hv2
    simp [computeInitialHull, hv2]
  · intro i2 p2 hv2 hpn hlen
    exact computeInitialHull_ok p0 rest i2 p2 hlen hv2 hpn

/-- Witness for C2's amended theorem: the square input satisfies the
success-side hypotheses, and the four flat faces are built. -/
theorem claim_C2_witness :
    (∃ h, computeInitialHull squarePoints = .ok h) ∧
      (hullFacesAfter squarePoints).length = 4 :=
  (claim_C2_amended ⟨0, 0, 0⟩ [⟨1, 0, 0⟩, ⟨0, 1, 0⟩, ⟨1, 1, 0⟩]).2 2 ⟨0, 1, 0⟩
    (by norm_num [initialI0, initialI1, initialExt, computeExtremes, withIdx, extInit,
      extStep, initialAxis, selectV2, scanMax, distSqToSeg, segParam, sub, add, smul, dot,
      distSq, getComp, vzero])
    (by norm_num [initialI0, initialI1, initialExt, computeExtremes, withIdx, extInit,
      extStep, initialAxis, scanMax, planeNormal3, cross, sub, dot, getComp, vzero,
      Vec3.mk.injEq])
    (by norm_num)

/-- C4 counterexample: for the six cube face planes, a ray starting on the
face `x = 1` and pointing away along `+x` triggers neither early `null`
exit — no face has the origin strictly outside with a non-approaching
direction, and the `[tNear, tFar]` interval never becomes empty (it is
never even narrowed: every face yields `t ≤ 0` and is skipped) — yet the
final step does not return `null` as the claim requires for an
interval that is still `(-∞, ∞)`: the code returns `ray.at(Infinity)`, a
non-null vector with infinite/NaN components. -/
theorem claim_C4_counterexample :
    (∀ f ∈ cubeFaces, ¬(0 < distanceToPoint f cubeRayOrigin ∧ 0 ≤ dot f.normal cubeRayDir)) ∧
      intersectRayLoop cubeRayOrigin cubeRayDir cubeFaces none none = some (none, none) ∧
      intersectRay cubeFaces cubeRayOrigin cubeRayDir = some RayHit.infinitePoint := by
  have hloop : intersectRayLoop cubeRayOrigin cubeRayDir cubeFaces none none =
      some (none, none) := by
    norm_num [intersectRayLoop, tGT, cubeFaces, cubeRayOrigin, cubeRayDir,
      distanceToPoint, dot]
  refine ⟨?_, hloop, ?_⟩
  · intro f hf
    rcases List.mem_cons.mp hf with rfl | hf
    · norm_num [distanceToPoint, dot, cubeRayOrigin, cubeRayDir]
    · rcases List.mem_cons.mp hf with rfl | hf
      · norm_num [distanceToPoint, dot, cubeRayOrigin, cubeRayDir]
      · rcases List.mem_cons.mp hf with rfl | hf
        · norm_num [distanceToPoint, dot, cubeRayOrigin, cubeRayDir]
        · rcases List.mem_cons.mp hf with rfl | hf
          · norm_num [distanceToPoint, dot, cubeRayOrigin, cubeRayDir]
          · rcases List.mem_cons.mp hf with rfl | hf
            · norm_num [distanceToPoint, dot, cubeRayOrigin, cubeRayDir]
            · rcases List.mem_cons.mp hf with rfl | hf
              · norm_num [distanceToPoint, dot, cubeRayOrigin, cubeRayDir]
              · exact absurd hf (List.not_mem_nil f)
  · simp [intersectRay, hloop]

/-- C4 amended: `intersectRay` returns `null` immediately when some face
has the ray origin strictly outside (`vN > 0`) with a direction not moving
toward the plane (`vD ≥ 0`), and returns `null` whenever the narrowed
interval becomes empty (`tNear > tFar`); otherwise it returns the point at
`tNear` when `tNear` was set (such a `tNear` is always finite and
positive), else the point at `tFar` when `tFar` was set (also positive) —
and when neither end was ever narrowed it does NOT return `null`: it
returns the non-null `ray.at(Infinity)` vector. -/
theorem claim_C4_amended (faces : List FaceData) (o dir : Vec3) :
    ((∃ f ∈ faces, 0 < distanceToPoint f o ∧ 0 ≤ dot f.normal dir) →
      intersectRay faces o dir = none) ∧
    (intersectRayLoop o dir faces none none = none → intersectRay faces o dir = none) ∧
    (∀ tn tf, intersectRayLoop o dir faces none none = some (tn, tf) →
      (∀ t, tn = some t →
        0 < t ∧ intersectRay faces o dir = some (RayHit.point (rayAt o dir t))) ∧
      (tn = none → ∀ t, tf = some t →
        0 < t ∧ intersectRay faces o dir = some (RayHit.point (rayAt o dir t))) ∧
      (tn = none → tf = none → intersectRay faces o dir = some RayHit.infinitePoint)) := by
  refine ⟨?_, ?_, ?_⟩
  · intro hex
    have := intersectRayLoop_none_of_exists o dir faces none none hex
    simp [intersectRay, this]
  · intro hnone
    simp [intersectRay, hnone]
  · intro tn tf hloop
    have hpos := intersectRayLoop_pos o dir faces none none tn tf
      (fun q hq => by cases hq) (fun q hq => by cases hq) hloop
    refine ⟨?_, ?_, ?_⟩
    · intro t ht
      subst ht
      exact ⟨hpos.1 t rfl, by simp [intersectRay, hloop]⟩
    · intro htn t ht
      subst htn
      subst ht
      exact ⟨hpos.2 t rfl, by simp [intersectRay, hloop]⟩
    · intro htn htf
      subst htn
      subst htf
      simp [intersectRay, hloop]

/-- Witness for C4's amended theorem: a ray strictly outside a plane and
pointing along it is rejected immediately with no intersection. -/
theorem claim_C4_witness :
    intersectRay [FaceData.mk ⟨0, 0, 1⟩ 0] ⟨0, 0, 1⟩ ⟨0, 0, 1⟩ = none :=
  (claim_C4_amended [FaceData.mk ⟨0, 0, 1⟩ 0] ⟨0, 0, 1⟩ ⟨0, 0, 1⟩).1
    ⟨FaceData.mk ⟨0, 0, 1⟩ 0, List.mem_cons_self _ _,
      by norm_num [distanceToPoint, dot], by norm_num [dot]⟩

/-- C7: after every face-creating or face-stitching operation the DCEL
topology invariants hold.  (1)-(2): after the initial-simplex stitching
(either winding branch) the twin map is a total involution on all 12 edges:
`e.twin.twin = e`.  (3)-(4): the three edges created by `Face.create` form
a closed 3-cycle (`edge.next.next.next = edge`, with `prev` inverse to
`next`), and these links are never mutated afterwards.  (5): `addNewFaces`
on a horizon of length `n + 1` whose outer (horizon-twin) edges are
pairwise distinct, starting from a mesh in which every surviving old edge
not on the horizon has a surviving non-horizon mutual twin, leaves the twin
relation an involution on every live half-edge. -/
theorem claim_C7 {α : Type} [DecidableEq α] (n : ℕ) (outer : ℕ → α)
    (oldTwin : α → Option α) (liveOld : α → Prop)
    (hinj : ∀ i j, i ≤ n → j ≤ n → outer i = outer j → i = j)
    (hlive : ∀ a, liveOld a → (∀ i, i ≤ n → outer i ≠ a) →
      ∃ b, oldTwin a = some b ∧ liveOld b ∧ (∀ j, j ≤ n → outer j ≠ b) ∧
        oldTwin b = some a) :
    (∀ e : Fin 4 × Fin 3, (initialTwinNeg e).bind initialTwinNeg = some e) ∧
    (∀ e : Fin 4 × Fin 3, (initialTwinPos e).bind initialTwinPos = some e) ∧
    (∀ s : Fin 3, createNext (createNext (createNext s)) = s) ∧
    (∀ s : Fin 3, createPrev (createNext s) = s ∧ createNext (createPrev s) = s) ∧
    (∀ e, liveSt n liveOld e →
      (addNewFacesTwin n outer oldTwin e).bind (addNewFacesTwin n outer oldTwin) = some e) :=
  ⟨by decide, by decide, by decide, by decide,
    addNewFacesTwin_invol n outer oldTwin liveOld hinj hlive⟩

/-- Witness for C7 on a concrete mesh: a horizon of length 3 whose outer
edges are `0, 1, 2` of a six-edge old mesh in which `4` and `5` are
surviving mutual twins and `3` is deleted. -/
theorem claim_C7_witness :
    (∀ e : Fin 4 × Fin 3, (initialTwinNeg e).bind initialTwinNeg = some e) ∧
    (∀ e : Fin 4 × Fin 3, (initialTwinPos e).bind initialTwinPos = some e) ∧
    (∀ s : Fin 3, createNext (createNext (createNext s)) = s) ∧
    (∀ s : Fin 3, createPrev (createNext s) = s ∧ createNext (createPrev s) = s) ∧
    (∀ e, liveSt 2 exampleLive e →
      (addNewFacesTwin 2 exampleOuter exampleOldTwin e).bind
        (addNewFacesTwin 2 exampleOuter exampleOldTwin) = some e) :=
  claim_C7 2 exampleOuter exampleOldTwin exampleLive
    (by
      intro i j hi hj heq
      have hv := congrArg Fin.val heq
      simp only [exampleOuter] at hv
      omega)
    (by
      intro a hla hnr
      fin_cases a
      · exact absurd (by decide) (hnr 0 (by norm_num))
      · exact absurd (by decide) (hnr 1 (by norm_num))
      · exact absurd (by decide) (hnr 2 (by norm_num))
      · exact absurd (by decide) hla
      · refine ⟨5, by decide, show (5 : Fin 6) ≠ 3 by decide, ?_, by decide⟩
        intro j hj heq
        have hv := congrArg Fin.val heq
        simp only [exampleOuter] at hv
        omega
      · refine ⟨4, by decide, show (4 : Fin 6) ≠ 3 by decide, ?_, by decide⟩
        intro j hj heq
        have hv := congrArg Fin.val heq
        simp only [exampleOuter] at hv
        omega)

/-- C8: when the assigned ledger is non-empty (its entries all carrying,
as the ledger invariant guarantees, a positive plane distance above the
tolerance to their own face), `nextVertexToAdd` returns a vertex taken from
the outside run of the face owning the first ledger entry — the contiguous
span of entries referencing that face — and that vertex has maximum plane
distance to that specific face among the run, not a global maximum over
the hull. -/
theorem claim_C8 (fd : ℕ → FaceData) (first : VNode) (rest : List VNode)
    (tol : ℚ) (htol : 0 ≤ tol)
    (hledger : ∀ v ∈ first :: rest, tol < distanceToPoint (fd v.face) v.point) :
    ∃ v, nextVertexToAdd fd (first :: rest) = some v ∧
      v ∈ (first :: rest).takeWhile (fun w => decide (w.face = first.face)) ∧
      v.face = first.face ∧
      ∀ w ∈ (first :: rest).takeWhile (fun w => decide (w.face = first.face)),
        distanceToPoint (fd first.face) w.point ≤ distanceToPoint (fd first.face) v.point :=
  nextVertexToAdd_spec fd first rest tol htol hledger

/-- Witness for C8 on a two-entry ledger over one face. -/
theorem claim_C8_witness :
    ∃ v, nextVertexToAdd exampleFd [⟨⟨0, 0, 1⟩, 0⟩, ⟨⟨0, 0, 2⟩, 0⟩] = some v ∧
      v ∈ ([⟨⟨0, 0, 1⟩, 0⟩, ⟨⟨0, 0, 2⟩, 0⟩] : List VNode).takeWhile
        (fun w => decide (w.face = (VNode.mk ⟨0, 0, 1⟩ 0).face)) ∧
      v.face = (VNode.mk ⟨0, 0, 1⟩ 0).face ∧
      ∀ w ∈ ([⟨⟨0, 0, 1⟩, 0⟩, ⟨⟨0, 0, 2⟩, 0⟩] : List VNode).takeWhile
          (fun w => decide (w.face = (VNode.mk ⟨0, 0, 1⟩ 0).face)),
        distanceToPoint (exampleFd (VNode.mk ⟨0, 0, 1⟩ 0).face) w.point ≤
          distanceToPoint (exampleFd (VNode.mk ⟨0, 0, 1⟩ 0).face) v.point :=
  claim_C8 exampleFd ⟨⟨0, 0, 1⟩, 0⟩ [⟨⟨0, 0, 2⟩, 0⟩] 0 (le_refl 0)
    (by
      intro v hv
      rcases List.mem_cons.mp hv with rfl | hv
      · norm_num [exampleFd, distanceToPoint, dot]
      · rcases List.mem_cons.mp hv with rfl | hv
        · norm_num [exampleFd, distanceToPoint, dot]
        · exact absurd hv (List.not_mem_nil v))

/-! Kernel-checked evaluation of one complete build (`fivePoints`): the
initial state, one full `addVertexToHull` round — horizon recursion, fan
stitching, reassignment — and the finished hull, chained through trace
lemmas whose hypotheses isolate each branch decision. -/

theorem fin3_01 : ¬((0 : Fin 3) = 1) := by decide

theorem fin3_02 : ¬((0 : Fin 3) = 2) := by decide

theorem fin3_10 : ¬((1 : Fin 3) = 0) := by decide

theorem fin3_12 : ¬((1 : Fin 3) = 2) := by decide

theorem fin3_20 : ¬((2 : Fin 3) = 0) := by decide

theorem fin3_21 : ¬((2 : Fin 3) = 1) := by decide

/-- The negative-branch stitching, as the concrete widened twin map. -/
theorem initialTwinList_neg :
    initialTwinList simplexStitchNeg =
      [((3, 1), (1, 0)), ((1, 0), (3, 1)), ((3, 2), (0, 0)), ((0, 0), (3, 2)),
       ((2, 1), (3, 0)), ((3, 0), (2, 1)), ((2, 2), (0, 2)), ((0, 2), (2, 2)),
       ((1, 1), (2, 0)), ((2, 0), (1, 1)), ((1, 2), (0, 1)), ((0, 1), (1, 2))] := by
  decide

set_option maxHeartbeats 1600000 in
/-- The initial-hull phase of the `fivePoints` build, evaluated. -/
theorem computeInitialState_five :
    computeInitialState (fun q => q) fivePoints = some fiveInit := by
  norm_num [computeInitialState, computeInitialHull, initialI0, initialI1, initialExt,
    computeExtremes, withIdx, extInit, extStep, initialAxis, selectV2, selectV3, scanMax,
    distSqToSeg, segParam, planeDistOpt, planeNormal3, cross, sub, add, smul, dot, distSq,
    getComp, vzero, simplexFaces, fivePoints, toleranceOf, machineEps, mkFace, getFaceR,
    faceRecD, distFR, addVertexToFaceS, insertBeforeL, setFaceR, initialTwinList_neg,
    fiveInit]

/-- The eye selection of the `fivePoints` build: vertex `3`. -/
theorem nextVertexToAddS_five : nextVertexToAddS fiveInit = some (some 3) := by
  norm_num [nextVertexToAddS, fiveInit, lookupE, getFaceR, outsideRun, idxOfL, scanMax,
    distFR, pointOf, dot, fivePoints, faceRecD]

/-- After the round, the assigned ledger is empty and the loop exits. -/
theorem nextVertexToAddS_five_done : nextVertexToAddS fiveFinal = some none := by
  norm_num [nextVertexToAddS, fiveFinal]

/-- One `computeHorizon` visit whose cross-edge face records both its
remaining edges as horizon edges (no further recursion). -/
theorem computeHorizonS_visit2 (fuel : ℕ) (eye : Vec3) (ce t1 t2 : ℕ × Fin 3) (f : ℕ)
    (st stM : BuildState) (hz : List (ℕ × Fin 3))
    (hmark : setFaceR (deleteFaceVerticesS st f none) f
      { getFaceR (deleteFaceVerticesS st f none) f with mark := false } = stM)
    (ht1 : lookupE stM.twin (edgeNext ce) = some t1)
    (hm1 : (getFaceR stM t1.1).mark = true)
    (hc1 : ¬distFR (getFaceR stM t1.1) eye > stM.tolerance)
    (ht2 : lookupE stM.twin (edgeNext (edgeNext ce)) = some t2)
    (hm2 : (getFaceR stM t2.1).mark = true)
    (hc2 : ¬distFR (getFaceR stM t2.1) eye > stM.tolerance) :
    computeHorizonS (fuel + 1) eye (some ce) f st hz =
      some (stM, hz ++ [edgeNext ce] ++ [edgeNext (edgeNext ce)]) := by
  subst hmark
  simp [computeHorizonS, List.foldlM, ht1, hm1, hc1, ht2, hm2, hc2]

/-- One root `computeHorizon` visit (no cross edge, three edges) whose
first edge recurses into a seeing neighbour and whose remaining two edges
join the horizon. -/
theorem computeHorizonS_visit3 (fuel : ℕ) (eye : Vec3) (t1 t2 t3 : ℕ × Fin 3) (f : ℕ)
    (st stM stR : BuildState) (hz hzR : List (ℕ × Fin 3))
    (hmark : setFaceR (deleteFaceVerticesS st f none) f
      { getFaceR (deleteFaceVerticesS st f none) f with mark := false } = stM)
    (ht1 : lookupE stM.twin (f, 0) = some t1)
    (hm1 : (getFaceR stM t1.1).mark = true)
    (hc1 : distFR (getFaceR stM t1.1) eye > stM.tolerance)
    (hrec : computeHorizonS fuel eye (some t1) t1.1 stM hz = some (stR, hzR))
    (ht2 : lookupE stR.twin (f, 1) = some t2)
    (hm2 : (getFaceR stR t2.1).mark = true)
    (hc2 : ¬distFR (getFaceR stR t2.1) eye > stR.tolerance)
    (ht3 : lookupE stR.twin (f, 2) = some t3)
    (hm3 : (getFaceR stR t3.1).mark = true)
    (hc3 : ¬distFR (getFaceR stR t3.1) eye > stR.tolerance) :
    computeHorizonS (fuel + 1) eye none f st hz =
      some (stR, hzR ++ [(f, 1)] ++ [(f, 2)]) := by
  subst hmark
  simp [computeHorizonS, List.foldlM, ht1, hm1, hc1, hrec, ht2, hm2, hc2, ht3, hm3, hc3]

set_option maxHeartbeats 1000000 in
/-- The horizon of the `fivePoints` round: the four edges fencing off the
deleted faces `0` and `3`, in depth-first discovery order. -/
theorem computeHorizonS_five :
    computeHorizonS (fiveDetached.faces.length + 1) (pointOf fiveDetached 3) none 0
      fiveDetached [] = some (fiveSeen03, [(3, 0), (3, 1), (0, 1), (0, 2)]) := by
  have hl : fiveDetached.faces.length = 4 := by norm_num [fiveDetached]
  rw [hl]
  have hrec : computeHorizonS 4 (pointOf fiveDetached 3) (some (3, 2)) 3 fiveSeen0 [] =
      some (fiveSeen03, [(3, 0), (3, 1)]) := by
    have h := computeHorizonS_visit2 3 (pointOf fiveDetached 3) (3, 2) (2, 1) (1, 0) 3
      fiveSeen0 fiveSeen03 []
      (by norm_num [deleteFaceVerticesS, removeAllVerticesFromFaceS, getFaceR, setFaceR,
        faceRecD, fiveSeen0, fiveSeen03])
      (by norm_num [lookupE, edgeNext, createNext, fiveSeen03, fin3_01, fin3_02, fin3_10,
        fin3_12, fin3_20, fin3_21, -Prod.mk_zero_zero, -Prod.mk_one_one])
      (by norm_num [getFaceR, faceRecD, fiveSeen03])
      (by norm_num [distFR, getFaceR, faceRecD, fiveSeen03, fiveDetached, pointOf,
        fivePoints, dot])
      (by norm_num [lookupE, edgeNext, createNext, fiveSeen03, fin3_01, fin3_02, fin3_10,
        fin3_12, fin3_20, fin3_21, -Prod.mk_zero_zero, -Prod.mk_one_one])
      (by norm_num [getFaceR, faceRecD, fiveSeen03])
      (by norm_num [distFR, getFaceR, faceRecD, fiveSeen03, fiveDetached, pointOf,
        fivePoints, dot])
    norm_num [edgeNext, createNext] at h
    exact h
  have h := computeHorizonS_visit3 4 (pointOf fiveDetached 3) (3, 2) (1, 2) (2, 2) 0
    fiveDetached fiveSeen0 fiveSeen03 [] [(3, 0), (3, 1)]
    (by norm_num [deleteFaceVerticesS, removeAllVerticesFromFaceS, getFaceR, setFaceR,
      faceRecD, fiveDetached, fiveSeen0])
    (by norm_num [lookupE, fiveSeen0, fin3_01, fin3_02, fin3_10, fin3_12, fin3_20,
      fin3_21, -Prod.mk_zero_zero, -Prod.mk_one_one])
    (by norm_num [getFaceR, faceRecD, fiveSeen0])
    (by norm_num [distFR, getFaceR, faceRecD, fiveSeen0, fiveDetached, pointOf,
      fivePoints, dot])
    hrec
    (by norm_num [lookupE, fiveSeen03, fin3_01, fin3_02, fin3_10, fin3_12, fin3_20,
      fin3_21, -Prod.mk_zero_zero, -Prod.mk_one_one])
    (by norm_num [getFaceR, faceRecD, fiveSeen03])
    (by norm_num [distFR, getFaceR, faceRecD, fiveSeen03, fiveDetached, pointOf,
      fivePoints, dot])
    (by norm_num [lookupE, fiveSeen03, fin3_01, fin3_02, fin3_10, fin3_12, fin3_20,
      fin3_21, -Prod.mk_zero_zero, -Prod.mk_one_one])
    (by norm_num [getFaceR, faceRecD, fiveSeen03])
    (by norm_num [distFR, getFaceR, faceRecD, fiveSeen03, fiveDetached, pointOf,
      fivePoints, dot])
  norm_num at h
  exact h

set_option maxHeartbeats 1000000 in
/-- The fan of the `fivePoints` round: four new faces around vertex `3`,
stitched to the horizon, to each other, and closed by the final join. -/
theorem addNewFacesS_five :
    addNewFacesS fiveSeen03 3 [(3, 0), (3, 1), (0, 1), (0, 2)] = some fiveFinal := by
  norm_num [addNewFacesS, addNewFacesGo, addAdjoiningFaceS, mkFace, edgeTail, edgeHead,
    vertAt, getFaceR, faceRecD, createPrev, createNext, edgeNext, twinSet, lookupE, cross,
    sub, add, smul, dot, vzero, fiveSeen03, fiveFinal, fivePoints, fin3_01, fin3_02,
    fin3_10, fin3_12, fin3_20, fin3_21]

/-- `addVertexToHull`, decomposed along its statement sequence. -/
theorem addVertexToHull_trace (st st1 stM stF : BuildState) (eye f : ℕ)
    (hzn : List (ℕ × Fin 3))
    (h0 : lookupE st.vertFace eye = some f)
    (h1 : removeVertexFromFaceS { st with unassigned := ([] : List ℕ) } eye f = st1)
    (h2 : computeHorizonS (st1.faces.length + 1) (pointOf st1 eye) none f st1 [] =
      some (stM, hzn))
    (h3 : addNewFacesS stM eye hzn = some stF) :
    addVertexToHullS st eye = some (resolveUnassignedPointsS stF stF.newFaces) := by
  simp [addVertexToHullS, h0, h1, h2, h3]

/-- The loop exit of `compute`: no eye vertex, same state returned. -/
theorem computeLoopS_exit (fuel : ℕ) (st : BuildState)
    (h : nextVertexToAddS st = some none) : computeLoopS fuel st = some st := by
  cases fuel <;> simp [computeLoopS, h]

/-- One iteration of the `compute` loop. -/
theorem computeLoopS_step (fuel : ℕ) (st st1 : BuildState) (eye : ℕ)
    (h1 : nextVertexToAddS st = some (some eye))
    (h2 : addVertexToHullS st eye = some st1) :
    computeLoopS (fuel + 1) st = computeLoopS fuel st1 := by
  conv_lhs => rw [computeLoopS]
  simp only [h1, h2]

/-- The whole build, decomposed into its three phases. -/
theorem buildHull_trace (sqrtFn : ℚ → ℚ) (ps : List Vec3) (st stF : BuildState)
    (out : List ((ℕ × ℕ × ℕ) × Vec3 × ℚ))
    (h1 : computeInitialState sqrtFn ps = some st)
    (h2 : computeLoopS ps.length st = some stF)
    (h3 : hullOutput stF = out) :
    buildHull sqrtFn ps = some out := by
  simp [buildHull, h1, h2, h3]

/-- Detaching the eye vertex of the `fivePoints` round. -/
theorem removeVertexFromFaceS_five :
    removeVertexFromFaceS { fiveInit with unassigned := ([] : List ℕ) } 3 0 =
      fiveDetached := by
  norm_num [removeVertexFromFaceS, fiveInit, fiveDetached, getFaceR, faceRecD, nextOfL,
    lookupE, setFaceR, List.erase]

/-- No unassigned vertices remain, so reassignment changes nothing. -/
theorem resolveUnassignedPointsS_five :
    resolveUnassignedPointsS fiveFinal fiveFinal.newFaces = fiveFinal := by
  norm_num [resolveUnassignedPointsS, fiveFinal]

/-- The complete `addVertexToHull` round of the `fivePoints` build. -/
theorem addVertexToHullS_five : addVertexToHullS fiveInit 3 = some fiveFinal := by
  have h := addVertexToHull_trace fiveInit fiveDetached fiveSeen03 fiveFinal 3 0
    [(3, 0), (3, 1), (0, 1), (0, 2)]
    (by norm_num [lookupE, fiveInit]) removeVertexFromFaceS_five computeHorizonS_five
    addNewFacesS_five
  rw [h, resolveUnassignedPointsS_five]

/-- The `fivePoints` build end to end: the four simplex faces around
vertices `0, 1, 4, 2`, minus the two faces deleted when vertex `3` is
added, plus its four-face fan — six faces, in creation order. -/
theorem buildHull_five :
    buildHull (fun q => q) fivePoints =
      some [((2, 1, 0), ⟨0, 0, -1⟩, 0),
        ((2, 4, 1), ⟨1/3, 1/3, -1/3⟩, 1/3),
        ((3, 4, 2), ⟨-1/3, 1/3, 1/3⟩, 1/3),
        ((3, 2, 0), ⟨-1, 0, 0⟩, 0),
        ((3, 0, 1), ⟨0, -1, 0⟩, 0),
        ((3, 1, 4), ⟨1/3, -1/3, 1/3⟩, 1/3)] := by
  have hloop : computeLoopS (List.length fivePoints) fiveInit = some fiveFinal := by
    have h5 : List.length fivePoints = 4 + 1 := by norm_num [fivePoints]
    rw [h5, computeLoopS_step 4 fiveInit fiveFinal 3 nextVertexToAddS_five
      addVertexToHullS_five, computeLoopS_exit 4 fiveFinal nextVertexToAddS_five_done]
  exact buildHull_trace (fun q => q) fivePoints fiveInit fiveFinal _
    computeInitialState_five hloop (by norm_num [hullOutput, fiveFinal])

/-- An index lookup that yields an element puts that element in the list. -/
theorem mem_of_idx {β : Type} {l : List β} {n : ℕ} {a : β} (h : l[n]? = some a) :
    a ∈ l := by
  induction l generalizing n with
  | nil => cases h
  | cons x xs ih =>
    cases n with
    | zero =>
      simp only [List.getElem?_cons_zero] at h
      exact (Option.some.inj h) ▸ List.mem_cons_self x xs
    | succ k =>
      simp only [List.getElem?_cons_succ] at h
      exact List.mem_cons_of_mem x (ih h)

/-- Two first-found-maximiser positions of the same scanned list coincide:
the decomposition, the winner and its value are all unique.  This is what
makes "ties broken by first found" a deterministic selection rule. -/
theorem firstFoundMax_unique {β : Type} (cand : β → Bool) (dist : β → Option ℚ)
    (m : ℚ) (l1 l2 l3 l4 : List β) (v w : β) (d e : ℚ)
    (heq : l1 ++ v :: l2 = l3 ++ w :: l4)
    (h : firstFoundMax cand dist m l1 v l2 d)
    (h2 : firstFoundMax cand dist m l3 w l4 e) :
    l1 = l3 ∧ v = w ∧ l2 = l4 ∧ d = e := by
  obtain ⟨hcv, hdv, _, hpre, hsuf⟩ := h
  obtain ⟨hcw, hdw, _, hpre2, hsuf2⟩ := h2
  rcases Nat.lt_trichotomy l1.length l3.length with hlt | hl | hgt
  · exfalso
    have hv : (l1 ++ v :: l2)[l1.length]? = some v := by
      rw [List.getElem?_append_right (le_refl _)]
      simp
    rw [heq] at hv
    have hvl3 : l3[l1.length]? = some v := by
      rw [List.getElem?_append, if_pos hlt] at hv
      exact hv
    have hvmem : v ∈ l3 := mem_of_idx hvl3
    have hw : (l3 ++ w :: l4)[l3.length]? = some w := by
      rw [List.getElem?_append_right (le_refl _)]
      simp
    rw [← heq] at hw
    have hwl2 : (v :: l2)[l3.length - l1.length]? = some w := by
      rwa [List.getElem?_append_right (Nat.le_of_lt hlt)] at hw
    have hwl2b : l2[l3.length - l1.length - 1]? = some w := by
      rcases hk : l3.length - l1.length with _ | k
      · omega
      · rw [hk] at hwl2
        simpa using hwl2
    have hwmem : w ∈ l2 := mem_of_idx hwl2b
    exact absurd (hpre2 v hvmem hcv d hdv) (not_lt.mpr (hsuf w hwmem hcw e hdw))
  · obtain ⟨h13, hcons⟩ := List.append_inj heq hl
    have hvw : v = w := by
      injection hcons
    have h24 : l2 = l4 := by
      injection hcons
    subst hvw
    refine ⟨h13, rfl, h24, ?_⟩
    rw [hdv] at hdw
    exact Option.some.inj hdw
  · exfalso
    have hv : (l3 ++ w :: l4)[l3.length]? = some w := by
      rw [List.getElem?_append_right (le_refl _)]
      simp
    rw [← heq] at hv
    have hvl1 : l1[l3.length]? = some w := by
      rw [List.getElem?_append, if_pos hgt] at hv
      exact hv
    have hvmem : w ∈ l1 := mem_of_idx hvl1
    have hw : (l1 ++ v :: l2)[l1.length]? = some v := by
      rw [List.getElem?_append_right (le_refl _)]
      simp
    rw [heq] at hw
    have hwl4 : (w :: l4)[l1.length - l3.length]? = some v := by
      rwa [List.getElem?_append_right (Nat.le_of_lt hgt)] at hw
    have hwl4b : l4[l1.length - l3.length - 1]? = some v := by
      rcases hk : l1.length - l3.length with _ | k
      · omega
      · rw [hk] at hwl4
        simpa using hwl4
    have hwmem : v ∈ l4 := mem_of_idx hwl4b
    exact absurd (hpre w hvmem hcw e hdw) (not_lt.mpr (hsuf2 v hwmem hcv d hdv))

/-- C9: construction is a deterministic function of the input sequence.
The build is embedded end to end — `computeInitialHull` with its tolerance
and stitching, the `compute` loop with `nextVertexToAdd`,
`computeHorizon`, `addNewFaces` and `resolveUnassignedPoints`, and the
final `reindexFaces` face list — as the function `buildHull` over the
input points and the one external function it consults (`Math.sqrt`,
itself a fixed deterministic map), so two builds on identical input
sequences yield the identical resulting-hull face topology: the same
faces, in the same creation order, with the same geometry (conjunct 1).
Ties in the linear scans are broken by first-found: the shared argmax scan
always settles on a first-found-maximiser position of its list
(conjunct 2), and such a position — split, winner and value — is unique
(conjunct 3), so no scan has any residual freedom. -/
theorem claim_C9 :
    (∀ (sqrtFn : ℚ → ℚ) (ps qs : List Vec3), ps = qs →
      buildHull sqrtFn ps = buildHull sqrtFn qs) ∧
    (∀ (β : Type) (cand : β → Bool) (dist : β → Option ℚ) (l : List β) (m : ℚ)
      (v : β), (scanMax cand dist l m none).2 = some v →
      ∃ l1 l2 d, l = l1 ++ v :: l2 ∧ (scanMax cand dist l m none).1 = d ∧
        firstFoundMax cand dist m l1 v l2 d) ∧
    (∀ (β : Type) (cand : β → Bool) (dist : β → Option ℚ) (m : ℚ)
      (l1 l2 l3 l4 : List β) (v w : β) (d e : ℚ),
      l1 ++ v :: l2 = l3 ++ w :: l4 →
      firstFoundMax cand dist m l1 v l2 d → firstFoundMax cand dist m l3 w l4 e →
      l1 = l3 ∧ v = w ∧ l2 = l4 ∧ d = e) := by
  refine ⟨fun sqrtFn ps qs h => by rw [h], ?_, ?_⟩
  · intro β cand dist l m v hv
    rcases scanMax_split cand dist l m none (fun u hu => by cases hu) v hv with
      ⟨hcon, _⟩ | ⟨l1, l2, d, hspl, hcv, hdv, hmd, hfst, hpre, hsuf⟩
    · cases hcon
    · exact ⟨l1, l2, d, hspl, hfst, hcv, hdv, hmd, hpre, hsuf⟩
  · intro β cand dist m l1 l2 l3 l4 v w d e heq h h2
    exact firstFoundMax_unique cand dist m l1 l2 l3 l4 v w d e heq h h2

/-- Witness for C9: the five-point build applied to itself (with the
concrete resulting topology evaluated), a concrete scan over `[3, 7, 7, 5]`
settling on the FIRST `7`, and the uniqueness of that position. -/
theorem claim_C9_witness :
    (buildHull (fun q => q) fivePoints = buildHull (fun q => q) fivePoints ∧
      buildHull (fun q => q) fivePoints =
        some [((2, 1, 0), ⟨0, 0, -1⟩, 0),
          ((2, 4, 1), ⟨1/3, 1/3, -1/3⟩, 1/3),
          ((3, 4, 2), ⟨-1/3, 1/3, 1/3⟩, 1/3),
          ((3, 2, 0), ⟨-1, 0, 0⟩, 0),
          ((3, 0, 1), ⟨0, -1, 0⟩, 0),
          ((3, 1, 4), ⟨1/3, -1/3, 1/3⟩, 1/3)]) ∧
    (∃ l1 l2 d, ([3, 7, 7, 5] : List ℚ) = l1 ++ (7 : ℚ) :: l2 ∧
      (scanMax (fun _ => true) some [3, 7, 7, 5] 0 none).1 = d ∧
      firstFoundMax (fun _ => true) some 0 l1 (7 : ℚ) l2 d) ∧
    ([(3 : ℚ)] = [3] ∧ (7 : ℚ) = 7 ∧ [(7 : ℚ), 5] = [7, 5] ∧ (7 : ℚ) = 7) :=
  ⟨⟨claim_C9.1 (fun q => q) fivePoints fivePoints rfl, buildHull_five⟩,
    claim_C9.2.1 ℚ (fun _ => true) some [3, 7, 7, 5] 0 7 (by norm_num [scanMax]),
    claim_C9.2.2 ℚ (fun _ => true) some 0 [3] [7, 5] [3] [7, 5] 7 7 7 7 rfl
      (by norm_num [firstFoundMax]) (by norm_num [firstFoundMax])⟩

end QuickHull
